import Mathlib

/-!
# Verification of the which-cdn evidence engine

Shallow embedding of the `CDNDetector` class from `src/public/js/app.js`:
signature catalog, CNAME/IP discovery (`getIPsFromDNS`), enrichment
(`getASNInfo`, `getReverseDNS`, header parsing) and the weighted-evidence
classifier inside `detectCDN`.  Network I/O is modelled by an oracle
(`Network`); JavaScript `NaN` from `parseInt` is modelled by `none`,
and JavaScript `===` on possibly-`NaN` numbers by `jsNumEq`.
-/

namespace WhichCDN

/-! ## String helpers modelling JavaScript string operations -/

/-- Does the second character list start with the first one? -/
def startsWithChars : List Char → List Char → Bool
  | [], _ => true
  | _ :: _, [] => false
  | p :: ps, c :: cs => p == c && startsWithChars ps cs

/-- Does the character list contain `pat` as a contiguous sublist? -/
def hasSubChars (pat : List Char) : List Char → Bool
  | [] => startsWithChars pat []
  | c :: cs => startsWithChars pat (c :: cs) || hasSubChars pat cs

/-- JavaScript `s.includes(pat)`. -/
def jsIncludes (s pat : String) : Bool := hasSubChars pat.data s.data

/-- JavaScript `s.replace(pat, '')`: remove the first occurrence of `pat`. -/
def removeFirstChars (pat : List Char) : List Char → List Char
  | [] => []
  | c :: cs =>
    if startsWithChars pat (c :: cs) then (c :: cs).drop pat.length
    else c :: removeFirstChars pat cs

/-- Accumulate leading decimal digits, stopping at the first non-digit. -/
def digitsToNat : List Char → Nat → Nat
  | [], acc => acc
  | c :: cs, acc =>
    if c.isDigit then digitsToNat cs (acc * 10 + (c.toNat - '0'.toNat)) else acc

/-- Leading-digit parse used by `jsParseInt`; `none` when the first
character is not a digit. -/
def parseLeadingDigits (l : List Char) : Option Nat :=
  match l with
  | [] => none
  | c :: _ => if c.isDigit then some (digitsToNat l 0) else none

/-- JavaScript `parseInt(s, 10)`: skip leading whitespace, accept an optional
sign, then read leading decimal digits; `none` models `NaN`. -/
def jsParseInt (s : String) : Option Int :=
  match s.data.dropWhile Char.isWhitespace with
  | '-' :: rest => (parseLeadingDigits rest).map (fun n => -(n : Int))
  | '+' :: rest => (parseLeadingDigits rest).map (fun n => (n : Int))
  | rest => (parseLeadingDigits rest).map (fun n => (n : Int))

/-- JavaScript `s.trim()`. -/
def jsTrimChars (l : List Char) : List Char :=
  ((l.dropWhile Char.isWhitespace).reverse.dropWhile Char.isWhitespace).reverse

/-- Split a character list on a separator character (JavaScript `split`). -/
def splitOnCharList (sep : Char) : List Char → List (List Char)
  | [] => [[]]
  | c :: cs =>
    if c == sep then [] :: splitOnCharList sep cs
    else
      match splitOnCharList sep cs with
      | [] => [[c]]
      | t :: ts => (c :: t) :: ts

/-- Split at the first occurrence of `sep` (JavaScript `indexOf` + `slice`);
`none` when `sep` does not occur. -/
def breakAtChar (sep : Char) : List Char → Option (List Char × List Char)
  | [] => none
  | c :: cs =>
    if c == sep then some ([], cs)
    else (breakAtChar sep cs).map (fun x => (c :: x.1, x.2))

/-! ## Signature catalog (`this.cdnSignatures` in `app.js`) -/

/-- One catalog entry: known ASNs, domain suffixes, header names and
server-header tokens of a provider. -/
structure Signature where
  asns : List Int
  domains : List String
  headers : List String
  servers : List String
deriving DecidableEq

/-- The provider catalog of `app.js`, in `Object.entries` iteration order. -/
def cdnSignatures : List (String × Signature) :=
  [("Alibaba",
    ⟨[24429, 37963], ["alicdn.com", "yundunwaf3.com"], ["X-Alibaba-Cloud-Cache"], []⟩),
   ("Akamai",
    ⟨[20940, 16625, 21342],
     ["akamai.net", "akamaized.net", "edgesuite.net", "akamaitechnologies.com",
      "akamaiedge.net"],
     ["X-Akamai-Transformed"], ["AkamaiGHost"]⟩),
   ("Cloudflare",
    ⟨[13335], ["cloudflare.com"], ["CF-RAY", "CF-Cache-Status"], ["cloudflare"]⟩),
   ("Fastly",
    ⟨[54113], ["fastly.net"], ["X-Fastly", "X-Cache-Hit"], ["fastly"]⟩),
   ("CloudFront",
    ⟨[16509], ["cloudfront.net", "cloudfront.net.s3.amazonaws.com"],
     ["X-Amz-Cf-Pop"], []⟩),
   ("Google",
    ⟨[15169], ["googleusercontent.com"], ["X-Google-Cache"], []⟩),
   ("Azure",
    ⟨[8075], ["azureedge.net"], ["X-Azure-Ref"], []⟩)]

/-- The catalog's provider keys in iteration order. -/
def catalogKeys : List String := cdnSignatures.map (·.1)

/-! ## Data model -/

/-- Result of `getASNInfo`: `asn = none` models the `NaN` produced by
`parseInt` on an unparseable organization string. -/
structure ASNRecord where
  asn : Option Int
  organization : Option String
  country : Option String
  city : Option String
deriving DecidableEq

/-- JavaScript `===` on the `asn` fields: `NaN` (modelled `none`) is not
equal to anything, itself included. -/
def jsNumEq : Option Int → Option Int → Bool
  | some x, some y => x == y
  | _, _ => false

/-- One weighted observation pushed onto `results.evidence`. -/
structure Evidence where
  provider : String
  weight : Nat
  message : String
deriving DecidableEq

/-- The `data` object assembled in the collection phase of `detectCDN`. -/
structure CollectedData where
  headers : List (String × String)
  cnameChain : List String
  ips : List String
  asns : List ASNRecord
  reverseDNS : List String
deriving DecidableEq

/-- JavaScript property read `h[k]` on an object modelled as an ordered
association list. -/
def jsGet (h : List (String × String)) (k : String) : Option String :=
  (h.find? (fun x => x.1 == k)).map (·.2)

/-- JavaScript truthiness of `h[k]` for string values: present and non-empty. -/
def truthy : Option String → Bool
  | some v => v != ""
  | none => false

/-! ## Analysis phase (`detectCDN`, step 2) -/

/-- ASN check: one evidence entry of weight 100 per pair of a catalog ASN and
an enrichment record whose `asn` strictly equals it. -/
def asnEvidence (p : String) (sigAsns : List Int) (asns : List ASNRecord) :
    List Evidence :=
  sigAsns.flatMap (fun a =>
    asns.filterMap (fun r =>
      if jsNumEq r.asn (some a) then
        some ⟨p, 100, "ASN " ++ toString a ++ " matches " ++ p⟩
      else none))

/-- CNAME and reverse-DNS check: per catalog suffix, a weight-50 entry for
every visited hostname containing it, then one for every PTR result
containing it. -/
def suffixEvidence (p : String) (sigDomains : List String)
    (cnameChain reverseDNS : List String) : List Evidence :=
  sigDomains.flatMap (fun d =>
    cnameChain.filterMap (fun c =>
      if jsIncludes c d then
        some ⟨p, 50, "CNAME " ++ c ++ " matches " ++ p⟩
      else none)
    ++ reverseDNS.filterMap (fun r =>
      if jsIncludes r d then
        some ⟨p, 50, "Reverse DNS " ++ r ++ " matches " ++ p⟩
      else none))

/-- Header check: weight 30 when the catalog header name reads back truthy. -/
def headerEvidence (p : String) (sigHeaders : List String)
    (headers : List (String × String)) : List Evidence :=
  sigHeaders.filterMap (fun h =>
    if truthy (jsGet headers h) then
      some ⟨p, 30, "Header " ++ h ++ " matches " ++ p⟩
    else none)

/-- Server-header check: weight 30 when a `server` header exists and its
value contains the catalog token. -/
def serverEvidence (p : String) (sigServers : List String)
    (headers : List (String × String)) : List Evidence :=
  sigServers.filterMap (fun s =>
    match jsGet headers "server" with
    | some v =>
      if jsIncludes v s then
        some ⟨p, 30, "Server header " ++ s ++ " matches " ++ p⟩
      else none
    | none => none)

/-- All evidence one provider contributes, in source push order. -/
def providerEvidence (p : String) (sig : Signature) (data : CollectedData) :
    List Evidence :=
  asnEvidence p sig.asns data.asns
    ++ suffixEvidence p sig.domains data.cnameChain data.reverseDNS
    ++ headerEvidence p sig.headers data.headers
    ++ serverEvidence p sig.servers data.headers

/-- The full `results.evidence` list after the analysis loop. -/
def analysisEvidence (data : CollectedData) : List Evidence :=
  cdnSignatures.flatMap (fun ps => providerEvidence ps.1 ps.2 data)

/-! ## Classification (`detectCDN`, final step) -/

/-- One step of the `providerAndWeights` accumulation loop. -/
def addEvidenceWeight (pw : List (String × Nat)) (e : Evidence) :
    List (String × Nat) :=
  if pw.any (fun x => x.1 == e.provider) then
    pw.map (fun x => if x.1 == e.provider then (x.1, x.2 + e.weight) else x)
  else pw ++ [(e.provider, e.weight)]

/-- The `providerAndWeights` object: per-provider weight sums in first-seen
key order. -/
def providerAndWeights (es : List Evidence) : List (String × Nat) :=
  es.foldl addEvidenceWeight []

/-- The `sumWeights` accumulator: total weight of all evidence. -/
def sumWeights (es : List Evidence) : Nat := (es.map (·.weight)).sum

/-- `Math.max(...)` over a list of naturals (the guarded use site always
passes a non-empty list). -/
def maxNatList (l : List Nat) : Nat := l.foldl max 0

/-- The engine's output object. -/
structure DetectionResult where
  domain : String
  cdnDetected : Bool
  cdnProvider : Option String
  confidence : ℚ
  evidence : List Evidence
  data : CollectedData
deriving DecidableEq

/-- Analysis plus classification over already-collected data. -/
def classify (domain : String) (data : CollectedData) : DetectionResult :=
  if (analysisEvidence data).isEmpty then
    ⟨domain, false, none, 0, analysisEvidence data, data⟩
  else
    ⟨domain, true,
     ((providerAndWeights (analysisEvidence data)).find? (fun x =>
        x.2 == maxNatList
          ((providerAndWeights (analysisEvidence data)).map (·.2)))).map (·.1),
     (maxNatList ((providerAndWeights (analysisEvidence data)).map (·.2)) : ℚ)
       / (sumWeights (analysisEvidence data) : ℚ),
     analysisEvidence data, data⟩

/-! ## Network oracle and resolvers -/

/-- One entry of a DNS-over-HTTPS `Answer` array. -/
structure DNSAnswer where
  type : Nat
  data : String
deriving DecidableEq

/-- JSON body returned by the IP organization lookup. -/
structure ASNResponse where
  org : Option String
  country : Option String
  city : Option String
deriving DecidableEq

/-- Oracle for all outbound calls of one detection run.  `none` models a
request that throws (network error, timeout, non-2xx); a `some []` DNS
answer models a response with a missing or empty `Answer` array. -/
structure Network where
  headersText : Option String
  dns : String → Option (List DNSAnswer)
  asn : String → Option ASNResponse
  ptr : String → Option (List DNSAnswer)

/-- JavaScript `Set.add`: append if not already present. -/
def setAdd (l : List String) (x : String) : List String :=
  if l.contains x then l else l ++ [x]

/-- `new Set(array)`: deduplicate keeping first occurrences. -/
def dedupStr (l : List String) : List String := l.foldl setAdd []

/-- `doDNSLookup`: split the answers into A-record IPs and CNAME targets,
each collected into a `Set`.  `none` when the request throws. -/
def doDNSLookup (net : Network) (domain : String) :
    Option (List String × List String) :=
  (net.dns domain).map (fun answers =>
    (dedupStr (answers.filterMap (fun a =>
        if a.type == 1 then some a.data else none)),
     dedupStr (answers.filterMap (fun a =>
        if a.type == 5 then some a.data else none))))

/-- Enqueue the freshly returned CNAME targets that are neither visited nor
already queued, in answer order. -/
def enqueueCNames (chain queue cnames : List String) : List String :=
  cnames.foldl
    (fun q c => if chain.contains c || q.contains c then q else q ++ [c]) queue

/-- The `getIPsFromDNS` work loop.  The first component of the result is the
list of hostnames a DNS request was issued for; the second is `none` when a
lookup threw (the exception aborts the whole traversal). -/
def getIPsLoop (net : Network) :
    Nat → List String → List String → List String → List String →
    List String × Option (List String × List String)
  | 0, _, ips, chain, queried => (queried, some (ips, chain))
  | _ + 1, [], ips, chain, queried => (queried, some (ips, chain))
  | fuel + 1, h :: rest, ips, chain, queried =>
    match doDNSLookup net h with
    | none => (queried ++ [h], none)
    | some (recIps, recCNames) =>
      let chain' := setAdd chain h
      let ips' := recIps.foldl setAdd ips
      let queue' := enqueueCNames chain' rest recCNames
      getIPsLoop net fuel queue' ips' chain' (queried ++ [h])

/-- The two seed hostnames: the input domain plus its `www.`-toggled
counterpart. -/
def wwwSeeds (domain : String) : List String :=
  if startsWithChars ['w', 'w', 'w', '.'] domain.data then
    [domain, String.mk (domain.data.drop 4)]
  else
    [domain, "www." ++ domain]

/-- `getIPsFromDNS`: bounded breadth-first CNAME/IP discovery with a budget
of 10 DNS requests. -/
def getIPsFromDNS (net : Network) (domain : String) :
    List String × Option (List String × List String) :=
  getIPsLoop net 10 (wwwSeeds domain) [] [] []

/-- Parse the leading `AS<number>` of an `org` field the way `getASNInfo`
does: first space-token, first `"AS"` occurrence removed, `parseInt`. -/
def asnFromOrg : Option String → Option Int
  | none => none
  | some o =>
    jsParseInt (String.mk (removeFirstChars ['A', 'S']
      (o.data.takeWhile (fun c => c != ' '))))

/-- `getASNInfo`: `none` when the request throws; otherwise a record whose
`asn` field is `none` exactly when the parse produced `NaN`. -/
def getASNInfo (net : Network) (ip : String) : Option ASNRecord :=
  match net.asn ip with
  | none => none
  | some resp =>
    some { asn := asnFromOrg resp.org,
           organization := resp.org.bind (fun s => if s == "" then none else some s),
           country := resp.country,
           city := resp.city }

/-- `ip.split('.').reverse().join('.') + '.in-addr.arpa'`. -/
def reverseIPName (ip : String) : String :=
  String.mk (List.intercalate ['.'] (splitOnCharList '.' ip.data).reverse)
    ++ ".in-addr.arpa"

/-- `getReverseDNS`: first PTR answer's data, `none` on failure or when the
`Answer` array is missing or empty. -/
def getReverseDNS (net : Network) (ip : String) : Option String :=
  match net.ptr (reverseIPName ip) with
  | none => none
  | some answers => answers.head?.map (·.data)

/-- JavaScript property write `h[k] = v` on an object modelled as an ordered
association list: overwrite in place or append. -/
def setHeader (h : List (String × String)) (k v : String) :
    List (String × String) :=
  if h.any (fun x => x.1 == k) then
    h.map (fun x => if x.1 == k then (k, v) else x)
  else h ++ [(k, v)]

/-- One line of the raw header dump: skip blank lines and the status line,
split at the first colon, trim key and value. -/
def parseHeaderLine (h : List (String × String)) (line : List Char) :
    List (String × String) :=
  if jsTrimChars line == [] || startsWithChars ['H', 'T', 'T', 'P', '/'] line then h
  else
    match breakAtChar ':' line with
    | none => h
    | some (k, v) => setHeader h (String.mk (jsTrimChars k)) (String.mk (jsTrimChars v))

/-- `getHeaders` parsing: fold the line parser over the `\n`-split text. -/
def parseHeaders (text : String) : List (String × String) :=
  (splitOnCharList '\n' text.data).foldl parseHeaderLine []

/-! ## Collection phase and the full engine -/

/-- Dedup loop over the settled ASN lookups: keep a result when it is
non-null and no kept record has a `===`-equal `asn` field. -/
def processASNResults (results : List (Option ASNRecord)) : List ASNRecord :=
  results.foldl
    (fun acc o =>
      match o with
      | some r => if acc.any (fun a => jsNumEq a.asn r.asn) then acc else acc ++ [r]
      | none => acc) []

/-- Collect the non-null PTR results into a `Set`. -/
def processPTRResults (results : List (Option String)) : List String :=
  results.foldl
    (fun acc o => match o with | some r => setAdd acc r | none => acc) []

/-- Step 1 of `detectCDN`: headers, discovery, then per-IP enrichment; every
failure degrades to empty data for that source. -/
def collectData (net : Network) (domain : String) : CollectedData :=
  let headers :=
    match net.headersText with
    | some text => parseHeaders text
    | none => []
  let dnsPair :=
    match (getIPsFromDNS net domain).2 with
    | some (ips, chain) => if ips.isEmpty then ([], []) else (ips, chain)
    | none => ([], [])
  let asns := processASNResults (dnsPair.1.map (getASNInfo net))
  let reverseDNS := processPTRResults (dnsPair.1.map (getReverseDNS net))
  ⟨headers, dnsPair.2, dnsPair.1, asns, reverseDNS⟩

/-- The whole engine: collection followed by analysis and classification. -/
def detectCDN (net : Network) (domain : String) : DetectionResult :=
  classify domain (collectData net domain)

/-! ## Specification-side definitions -/

/-- Summed evidence weight of one provider, stated independently of the
`providerAndWeights` accumulation. -/
def providerWeight (es : List Evidence) (p : String) : Nat :=
  ((es.filter (fun e => e.provider == p)).map (·.weight)).sum

/-- Keys of an association list. -/
def keysOf (l : List (String × Nat)) : List String := l.map (·.1)

/-- First value bound to a key in an association list. -/
def lookW (l : List (String × Nat)) (p : String) : Option Nat :=
  (l.find? (fun x => x.1 == p)).map (·.2)

/-- The keys a fold of `addEvidenceWeight` appends, given the keys already
present: first occurrences in order. -/
def newKeys (seen : List String) : List String → List String
  | [] => []
  | p :: ps => if p ∈ seen then newKeys seen ps else p :: newKeys (p :: seen) ps

/-! ## Concrete fixtures used by witnesses and counterexamples -/

/-- The Cloudflare catalog entry. -/
def cfSig : Signature :=
  ⟨[13335], ["cloudflare.com"], ["CF-RAY", "CF-Cache-Status"], ["cloudflare"]⟩

/-- Data with one matching ASN record, two matching CNAME hops and one
matching PTR result for Cloudflare. -/
def dataMulti : CollectedData :=
  ⟨[], ["a.cloudflare.com", "b.cloudflare.com"], ["1.1.1.1"],
   [⟨some 13335, some "AS13335 Cloudflare, Inc.", none, none⟩],
   ["c.cloudflare.com"]⟩

/-- Data whose header map contains the catalog header `CF-RAY` with an
empty (falsy) value. -/
def dataEmptyHeaderVal : CollectedData :=
  ⟨[("CF-RAY", "")], [], [], [], []⟩

/-- Data with one truthy catalog header and a `server` header containing a
catalog token. -/
def dataHdr : CollectedData :=
  ⟨[("CF-RAY", "abc"), ("server", "cloudflare-x")], [], [], [], []⟩

/-- A network on which every outbound call fails. -/
def netFail : Network :=
  { headersText := none, dns := fun _ => none, asn := fun _ => none,
    ptr := fun _ => none }

/-- A network where DNS always fails but the header fetch returns a
Cloudflare header. -/
def netHdrOnly : Network :=
  { headersText := some "HTTP/1.1 200 OK\nCF-RAY: abc\n",
    dns := fun _ => none, asn := fun _ => none, ptr := fun _ => none }

/-- A network resolving `x.com` through a CNAME to one IP whose
organization parses to Cloudflare's ASN. -/
def netCF : Network :=
  { headersText := some "HTTP/1.1 200 OK\nCF-RAY: abc\nserver: cloudflare\n",
    dns := fun h =>
      if h == "x.com" then some [⟨5, "foo.cloudflare.com"⟩, ⟨1, "1.1.1.1"⟩]
      else if h == "foo.cloudflare.com" then some [⟨1, "1.1.1.1"⟩]
      else some [],
    asn := fun ip =>
      if ip == "1.1.1.1" then
        some ⟨some "AS13335 Cloudflare, Inc.", some "US", none⟩
      else none,
    ptr := fun _ => some [] }

/-- A network resolving `n.com` to two IPs whose organization strings do
not parse to any ASN (both produce `NaN`). -/
def netNaN : Network :=
  { headersText := none,
    dns := fun h =>
      if h == "n.com" then some [⟨1, "9.9.9.9"⟩, ⟨1, "8.8.8.8"⟩]
      else some [],
    asn := fun ip =>
      if ip == "9.9.9.9" then some ⟨some "garbage org", none, none⟩
      else if ip == "8.8.8.8" then some ⟨some "junk outfit", none, none⟩
      else none,
    ptr := fun _ => some [] }

/-! ## Lemmas on `Set` emulation -/

theorem contains_iff_mem (l : List String) (x : String) :
    l.contains x = true ↔ x ∈ l := by simp

theorem mem_setAdd_iff {l : List String} {x y : String} :
    y ∈ setAdd l x ↔ y ∈ l ∨ y = x := by
  unfold setAdd
  by_cases h : l.contains x = true
  · rw [if_pos h]
    constructor
    · exact Or.inl
    · rintro (hy | rfl)
      · exact hy
      · exact (contains_iff_mem l y).mp h
  · rw [if_neg h]
    simp

theorem setAdd_nodup {l : List String} (h : l.Nodup) (x : String) :
    (setAdd l x).Nodup := by
  unfold setAdd
  by_cases hc : l.contains x = true
  · rw [if_pos hc]; exact h
  · have hx : x ∉ l := by
      intro hmem
      exact hc ((contains_iff_mem l x).mpr hmem)
    rw [if_neg hc]
    rw [List.nodup_append]
    refine ⟨h, List.nodup_singleton x, ?_⟩
    intro a ha hb
    simp only [List.mem_singleton] at hb
    subst hb
    exact hx ha

theorem foldl_setAdd_nodup (xs : List String) :
    ∀ {l : List String}, l.Nodup → (xs.foldl setAdd l).Nodup := by
  induction xs with
  | nil => intro l h; exact h
  | cons x xs ih =>
    intro l h
    exact ih (setAdd_nodup h x)

/-! ## Discovery loop: budget and distinct queries -/

theorem getIPsLoop_length_le (net : Network) :
    ∀ (fuel : Nat) (queue ips chain queried : List String),
      ((getIPsLoop net fuel queue ips chain queried).1).length
        ≤ queried.length + fuel := by
  intro fuel
  induction fuel with
  | zero => intro queue ips chain queried; simp [getIPsLoop]
  | succ n ih =>
    intro queue ips chain queried
    cases queue with
    | nil => simp [getIPsLoop]
    | cons h rest =>
      rw [getIPsLoop]
      cases hdns : doDNSLookup net h with
      | none => simp
      | some pr =>
        obtain ⟨recIps, recCNames⟩ := pr
        have := ih (enqueueCNames (setAdd chain h) rest recCNames)
          (recIps.foldl setAdd ips) (setAdd chain h) (queried ++ [h])
        simp only [List.length_append, List.length_singleton] at this ⊢
        omega

/-- C5: the discovery loop issues at most 10 DNS lookups; termination is by
construction (structural recursion on the remaining budget). -/
theorem discovery_request_budget (net : Network) (domain : String) :
    ((getIPsFromDNS net domain).1).length ≤ 10 := by
  have := getIPsLoop_length_le net 10 (wwwSeeds domain) [] [] []
  simpa [getIPsFromDNS] using this

theorem startsWithChars_exists {p s : List Char}
    (h : startsWithChars p s = true) : ∃ r, s = p ++ r := by
  induction p generalizing s with
  | nil => exact ⟨s, rfl⟩
  | cons c cs ih =>
    cases s with
    | nil => simp [startsWithChars] at h
    | cons d ds =>
      simp only [startsWithChars, Bool.and_eq_true, beq_iff_eq] at h
      obtain ⟨rfl, h2⟩ := h
      obtain ⟨r, rfl⟩ := ih h2
      exact ⟨r, rfl⟩

theorem wwwSeeds_nodup (domain : String) : (wwwSeeds domain).Nodup := by
  unfold wwwSeeds
  by_cases h : startsWithChars ['w', 'w', 'w', '.'] domain.data = true
  · simp only [h, if_true]
    obtain ⟨r, hr⟩ := startsWithChars_exists h
    have hne : domain ≠ String.mk (domain.data.drop 4) := by
      intro he
      have hd := congrArg (fun s => s.data.length) he
      simp only [hr] at hd
      simp at hd
      omega
    simp [List.nodup_cons, hne]
  · rw [if_neg h]
    have hne : domain ≠ "www." ++ domain := by
      intro he
      have hd := congrArg String.length he
      rw [String.length_append] at hd
      have hw : ("www." : String).length = 4 := rfl
      omega
    simp [List.nodup_cons, hne]

theorem enqueueCNames_nil (chain q : List String) :
    enqueueCNames chain q [] = q := rfl

theorem enqueueCNames_cons (chain q : List String) (c : String)
    (cs : List String) :
    enqueueCNames chain q (c :: cs)
      = enqueueCNames chain
          (if chain.contains c || q.contains c then q else q ++ [c]) cs := rfl

theorem enqueue_preserve (chain' queried' : List String)
    (hqc : ∀ x ∈ queried', x ∈ chain') :
    ∀ (cnames q : List String), q.Nodup →
      (∀ x ∈ q, x ∉ chain' ∧ x ∉ queried') →
      (enqueueCNames chain' q cnames).Nodup ∧
        ∀ x ∈ enqueueCNames chain' q cnames, x ∉ chain' ∧ x ∉ queried' := by
  intro cnames
  induction cnames with
  | nil => intro q hq hx; exact ⟨hq, hx⟩
  | cons c cs ih =>
    intro q hq hx
    rw [enqueueCNames_cons]
    by_cases hc : (chain'.contains c || q.contains c) = true
    · rw [if_pos hc]
      exact ih q hq hx
    · rw [if_neg hc]
      have hcc : c ∉ chain' := fun hmem =>
        hc (by rw [Bool.or_eq_true]
               exact Or.inl ((contains_iff_mem chain' c).mpr hmem))
      have hcq : c ∉ q := fun hmem =>
        hc (by rw [Bool.or_eq_true]
               exact Or.inr ((contains_iff_mem q c).mpr hmem))
      have hcqd : c ∉ queried' := fun hmem => hcc (hqc c hmem)
      apply ih
      · rw [List.nodup_append]
        refine ⟨hq, List.nodup_singleton c, ?_⟩
        intro a ha hb
        simp only [List.mem_singleton] at hb
        subst hb
        exact hcq ha
      · intro x hxmem
        rcases List.mem_append.mp hxmem with hxq | hxc
        · exact hx x hxq
        · simp only [List.mem_singleton] at hxc
          subst hxc
          exact ⟨hcc, hcqd⟩

theorem getIPsLoop_queried_nodup (net : Network) :
    ∀ (fuel : Nat) (queue ips chain queried : List String),
      queue.Nodup →
      (∀ x ∈ queue, x ∉ chain ∧ x ∉ queried) →
      (∀ x ∈ queried, x ∈ chain) →
      queried.Nodup →
      ((getIPsLoop net fuel queue ips chain queried).1).Nodup := by
  intro fuel
  induction fuel with
  | zero => intro queue ips chain queried _ _ _ h4; exact h4
  | succ n ih =>
    intro queue ips chain queried h1 h2 h3 h4
    cases queue with
    | nil => exact h4
    | cons h rest =>
      have hh := h2 h (List.mem_cons_self h rest)
      have hqh : (queried ++ [h]).Nodup := by
        rw [List.nodup_append]
        refine ⟨h4, List.nodup_singleton h, ?_⟩
        intro a ha hb
        simp only [List.mem_singleton] at hb
        subst hb
        exact hh.2 ha
      rw [getIPsLoop]
      cases hdns : doDNSLookup net h with
      | none => exact hqh
      | some pr =>
        obtain ⟨recIps, recCNames⟩ := pr
        have hrest := List.nodup_cons.mp h1
        have hqc' : ∀ x ∈ queried ++ [h], x ∈ setAdd chain h := by
          intro x hx
          rcases List.mem_append.mp hx with hxq | hxh
          · exact mem_setAdd_iff.mpr (Or.inl (h3 x hxq))
          · simp only [List.mem_singleton] at hxh
            subst hxh
            exact mem_setAdd_iff.mpr (Or.inr rfl)
        have hrestInv : ∀ x ∈ rest, x ∉ setAdd chain h ∧ x ∉ queried ++ [h] := by
          intro x hx
          have hxq := h2 x (List.mem_cons_of_mem h hx)
          have hxh : x ≠ h := fun he => hrest.1 (he ▸ hx)
          constructor
          · intro hmem
            rcases mem_setAdd_iff.mp hmem with hc | he
            · exact hxq.1 hc
            · exact hxh he
          · intro hmem
            rcases List.mem_append.mp hmem with hq | hs
            · exact hxq.2 hq
            · simp only [List.mem_singleton] at hs
              exact hxh hs
        obtain ⟨hq'1, hq'2⟩ := enqueue_preserve (setAdd chain h) (queried ++ [h])
          hqc' recCNames rest hrest.2 hrestInv
        exact ih _ _ _ _ hq'1 hq'2 hqc' hqh

/-- C10: every issued DNS query targets a distinct hostname, and there are
at most 10 of them. -/
theorem discovery_queries_distinct (net : Network) (domain : String) :
    ((getIPsFromDNS net domain).1).Nodup ∧
      ((getIPsFromDNS net domain).1).length ≤ 10 := by
  constructor
  · apply getIPsLoop_queried_nodup
    · exact wwwSeeds_nodup domain
    · intro x _; simp
    · intro x hx; simp at hx
    · exact List.nodup_nil
  · have := getIPsLoop_length_le net 10 (wwwSeeds domain) [] [] []
    simpa [getIPsFromDNS] using this

/-! ## Evidence chunk lemmas -/

theorem length_filterMap_if {α β : Type} (l : List α) (q : α → Bool)
    (g : α → β) :
    (l.filterMap (fun x => if q x then some (g x) else none)).length
      = l.countP q := by
  induction l with
  | nil => rfl
  | cons x xs ih =>
    by_cases hq : q x = true
    · simp [List.filterMap_cons, hq, List.countP_cons, ih]
    · simp [List.filterMap_cons, hq, List.countP_cons, ih]

theorem mem_asnEvidence {p : String} {A : List Int} {R : List ASNRecord}
    {e : Evidence} (h : e ∈ asnEvidence p A R) :
    e.provider = p ∧ e.weight = 100 := by
  unfold asnEvidence at h
  simp only [List.mem_flatMap, List.mem_filterMap] at h
  obtain ⟨a, _, r, _, hr⟩ := h
  split at hr
  · cases hr; exact ⟨rfl, rfl⟩
  · cases hr

theorem mem_suffixEvidence {p : String} {D : List String}
    {cn rd : List String} {e : Evidence} (h : e ∈ suffixEvidence p D cn rd) :
    e.provider = p ∧ e.weight = 50 := by
  unfold suffixEvidence at h
  simp only [List.mem_flatMap, List.mem_append, List.mem_filterMap] at h
  obtain ⟨d, _, h⟩ := h
  rcases h with ⟨c, _, hr⟩ | ⟨r, _, hr⟩ <;>
    · split at hr
      · cases hr; exact ⟨rfl, rfl⟩
      · cases hr

theorem mem_headerEvidence {p : String} {H : List String}
    {hd : List (String × String)} {e : Evidence}
    (h : e ∈ headerEvidence p H hd) : e.provider = p ∧ e.weight = 30 := by
  unfold headerEvidence at h
  simp only [List.mem_filterMap] at h
  obtain ⟨x, _, hr⟩ := h
  split at hr
  · cases hr; exact ⟨rfl, rfl⟩
  · cases hr

theorem mem_serverEvidence {p : String} {S : List String}
    {hd : List (String × String)} {e : Evidence}
    (h : e ∈ serverEvidence p S hd) : e.provider = p ∧ e.weight = 30 := by
  unfold serverEvidence at h
  simp only [List.mem_filterMap] at h
  obtain ⟨x, _, hr⟩ := h
  split at hr
  · split at hr
    · cases hr; exact ⟨rfl, rfl⟩
    · cases hr
  · cases hr

theorem mem_providerEvidence {p : String} {sig : Signature}
    {data : CollectedData} {e : Evidence}
    (h : e ∈ providerEvidence p sig data) :
    e.provider = p ∧ (e.weight = 100 ∨ e.weight = 50 ∨ e.weight = 30) := by
  unfold providerEvidence at h
  simp only [List.mem_append] at h
  rcases h with ((h | h) | h) | h
  · exact ⟨(mem_asnEvidence h).1, Or.inl (mem_asnEvidence h).2⟩
  · exact ⟨(mem_suffixEvidence h).1, Or.inr (Or.inl (mem_suffixEvidence h).2)⟩
  · exact ⟨(mem_headerEvidence h).1, Or.inr (Or.inr (mem_headerEvidence h).2)⟩
  · exact ⟨(mem_serverEvidence h).1, Or.inr (Or.inr (mem_serverEvidence h).2)⟩

theorem mem_analysisEvidence {data : CollectedData} {e : Evidence}
    (h : e ∈ analysisEvidence data) :
    e.provider ∈ catalogKeys ∧ 30 ≤ e.weight := by
  unfold analysisEvidence at h
  simp only [List.mem_flatMap] at h
  obtain ⟨ps, hps, hmem⟩ := h
  obtain ⟨hp, hw⟩ := mem_providerEvidence hmem
  constructor
  · rw [hp]
    exact List.mem_map.mpr ⟨ps, hps, rfl⟩
  · rcases hw with h | h | h <;> omega

/-! ## Per-provider evidence counting (C3/C4 machinery) -/

theorem countP_asnEvidence (p : String) (A : List Int) (R : List ASNRecord)
    (q : Evidence → Bool) (hq : ∀ e ∈ asnEvidence p A R, q e = true) :
    (asnEvidence p A R).countP q
      = (A.map (fun a => R.countP (fun r => jsNumEq r.asn (some a)))).sum := by
  rw [List.countP_eq_length.mpr hq]
  unfold asnEvidence
  rw [List.length_flatMap]
  congr 1
  apply List.map_congr_left
  intro a _
  exact length_filterMap_if R _ _

theorem countP_suffixEvidence (p : String) (D cn rd : List String)
    (q : Evidence → Bool) (hq : ∀ e ∈ suffixEvidence p D cn rd, q e = true) :
    (suffixEvidence p D cn rd).countP q
      = (D.map (fun d => cn.countP (fun c => jsIncludes c d)
          + rd.countP (fun r => jsIncludes r d))).sum := by
  rw [List.countP_eq_length.mpr hq]
  unfold suffixEvidence
  rw [List.length_flatMap]
  congr 1
  apply List.map_congr_left
  intro d _
  simp only [Function.comp_apply, List.length_append]
  rw [length_filterMap_if cn _ _, length_filterMap_if rd _ _]

theorem countP_headerEvidence (p : String) (H : List String)
    (hd : List (String × String)) (q : Evidence → Bool)
    (hq : ∀ e ∈ headerEvidence p H hd, q e = true) :
    (headerEvidence p H hd).countP q
      = H.countP (fun h => truthy (jsGet hd h)) := by
  rw [List.countP_eq_length.mpr hq]
  exact length_filterMap_if H _ _

theorem countP_serverEvidence (p : String) (S : List String)
    (hd : List (String × String)) (q : Evidence → Bool)
    (hq : ∀ e ∈ serverEvidence p S hd, q e = true) :
    (serverEvidence p S hd).countP q
      = match jsGet hd "server" with
        | some v => S.countP (fun t => jsIncludes v t)
        | none => 0 := by
  rw [List.countP_eq_length.mpr hq]
  cases hs : jsGet hd "server" with
  | none =>
    simp only [serverEvidence, hs]
    simp
  | some v =>
    simp only [serverEvidence, hs]
    exact length_filterMap_if S _ _

theorem countP_eq_zero_of_weight {es : List Evidence} {w : Nat}
    (h : ∀ e ∈ es, e.weight ≠ w) :
    es.countP (fun e => e.weight == w) = 0 := by
  rw [List.countP_eq_zero]
  intro e he
  simp only [beq_iff_eq]
  exact h e he

theorem countP_providerEvidence_100 (p : String) (sig : Signature)
    (data : CollectedData) :
    (providerEvidence p sig data).countP (fun e => e.weight == 100)
      = (sig.asns.map (fun a =>
          data.asns.countP (fun r => jsNumEq r.asn (some a)))).sum := by
  unfold providerEvidence
  rw [List.countP_append, List.countP_append, List.countP_append]
  rw [countP_asnEvidence p _ _ _
    (fun e he => by simp [(mem_asnEvidence he).2])]
  rw [countP_eq_zero_of_weight
    (fun e he => by rw [(mem_suffixEvidence he).2]; omega)]
  rw [countP_eq_zero_of_weight
    (fun e he => by rw [(mem_headerEvidence he).2]; omega)]
  rw [countP_eq_zero_of_weight
    (fun e he => by rw [(mem_serverEvidence he).2]; omega)]
  omega

theorem countP_providerEvidence_50 (p : String) (sig : Signature)
    (data : CollectedData) :
    (providerEvidence p sig data).countP (fun e => e.weight == 50)
      = (sig.domains.map (fun d =>
          data.cnameChain.countP (fun c => jsIncludes c d)
            + data.reverseDNS.countP (fun r => jsIncludes r d))).sum := by
  unfold providerEvidence
  rw [List.countP_append, List.countP_append, List.countP_append]
  rw [countP_eq_zero_of_weight
    (fun e he => by rw [(mem_asnEvidence he).2]; omega)]
  rw [countP_suffixEvidence p _ _ _ _
    (fun e he => by simp [(mem_suffixEvidence he).2])]
  rw [countP_eq_zero_of_weight
    (fun e he => by rw [(mem_headerEvidence he).2]; omega)]
  rw [countP_eq_zero_of_weight
    (fun e he => by rw [(mem_serverEvidence he).2]; omega)]
  omega

theorem countP_providerEvidence_30 (p : String) (sig : Signature)
    (data : CollectedData) :
    (providerEvidence p sig data).countP (fun e => e.weight == 30)
      = sig.headers.countP (fun h => truthy (jsGet data.headers h))
        + (match jsGet data.headers "server" with
           | some v => sig.servers.countP (fun t => jsIncludes v t)
           | none => 0) := by
  unfold providerEvidence
  rw [List.countP_append, List.countP_append, List.countP_append]
  rw [countP_eq_zero_of_weight
    (fun e he => by rw [(mem_asnEvidence he).2]; omega)]
  rw [countP_eq_zero_of_weight
    (fun e he => by rw [(mem_suffixEvidence he).2]; omega)]
  rw [countP_headerEvidence p _ _ _
    (fun e he => by simp [(mem_headerEvidence he).2])]
  rw [countP_serverEvidence p _ _ _
    (fun e he => by simp [(mem_serverEvidence he).2])]
  simp

/-! ## Restricting the analysis evidence to one provider -/

theorem filter_providerEvidence_self (q p : String) (sig : Signature)
    (data : CollectedData) :
    (providerEvidence q sig data).filter (fun e => e.provider == p)
      = if q = p then providerEvidence q sig data else [] := by
  by_cases hqp : q = p
  · rw [if_pos hqp]
    apply List.filter_eq_self.mpr
    intro e he
    simp [(mem_providerEvidence he).1, hqp]
  · rw [if_neg hqp]
    apply List.filter_eq_nil_iff.mpr
    intro e he
    simp [(mem_providerEvidence he).1, hqp]

theorem filter_flatMap_nil (p : String) (data : CollectedData) :
    ∀ (cat : List (String × Signature)), p ∉ cat.map (·.1) →
      (cat.flatMap (fun ps => providerEvidence ps.1 ps.2 data)).filter
          (fun e => e.provider == p) = [] := by
  intro cat
  induction cat with
  | nil => intro _; rfl
  | cons qs rest ih =>
    intro hnot
    simp only [List.map_cons, List.mem_cons, not_or] at hnot
    rw [List.flatMap_cons, List.filter_append]
    rw [filter_providerEvidence_self, if_neg (fun he => hnot.1 he.symm)]
    rw [ih hnot.2]
    rfl

theorem filter_flatMap_eq (data : CollectedData) :
    ∀ (cat : List (String × Signature)) (p : String) (sig : Signature),
      (cat.map (·.1)).Nodup → (p, sig) ∈ cat →
      (cat.flatMap (fun ps => providerEvidence ps.1 ps.2 data)).filter
          (fun e => e.provider == p) = providerEvidence p sig data := by
  intro cat
  induction cat with
  | nil => intro p sig _ h; simp at h
  | cons qs rest ih =>
    intro p sig hnd hmem
    simp only [List.map_cons, List.nodup_cons] at hnd
    rw [List.flatMap_cons, List.filter_append]
    rcases List.mem_cons.mp hmem with heq | hrest
    · have h1 : qs.1 = p := by rw [← heq]
      have h2 : qs.2 = sig := by rw [← heq]
      rw [filter_providerEvidence_self, if_pos h1, h1, h2]
      rw [filter_flatMap_nil p data rest (h1 ▸ hnd.1)]
      simp
    · have hp : p ∈ rest.map (·.1) :=
        List.mem_map.mpr ⟨(p, sig), hrest, rfl⟩
      have h1 : qs.1 ≠ p := fun he => hnd.1 (he ▸ hp)
      rw [filter_providerEvidence_self, if_neg h1]
      rw [ih p sig hnd.2 hrest]
      simp

theorem catalogKeys_nodup : catalogKeys.Nodup := by decide

theorem filter_analysisEvidence (p : String) (sig : Signature)
    (hmem : (p, sig) ∈ cdnSignatures) (data : CollectedData) :
    (analysisEvidence data).filter (fun e => e.provider == p)
      = providerEvidence p sig data :=
  filter_flatMap_eq data cdnSignatures p sig catalogKeys_nodup hmem

/-! ## C3 and C4 -/

/-- C3: each catalog provider's evidence during classification is exactly its
own chunk; the ASN check appends one weight-100 entry per pair of a catalog
ASN and an equal enriched ASN, and the suffix check appends one weight-50
entry per visited hostname containing a catalog suffix plus, independently,
one per PTR result containing it — all counted with multiplicity, never
deduplicated. -/
theorem evidence_match_multiplicities (p : String) (sig : Signature)
    (hmem : (p, sig) ∈ cdnSignatures) (data : CollectedData) :
    (analysisEvidence data).filter (fun e => e.provider == p)
        = providerEvidence p sig data
      ∧ (providerEvidence p sig data).countP (fun e => e.weight == 100)
          = (sig.asns.map (fun a =>
              data.asns.countP (fun r => jsNumEq r.asn (some a)))).sum
      ∧ (providerEvidence p sig data).countP (fun e => e.weight == 50)
          = (sig.domains.map (fun d =>
              data.cnameChain.countP (fun c => jsIncludes c d)
                + data.reverseDNS.countP (fun r => jsIncludes r d))).sum :=
  ⟨filter_analysisEvidence p sig hmem data,
   countP_providerEvidence_100 p sig data,
   countP_providerEvidence_50 p sig data⟩

theorem evidence_match_multiplicities_witness :
    ("Cloudflare", cfSig) ∈ cdnSignatures ∧
    ((analysisEvidence dataMulti).filter (fun e => e.provider == "Cloudflare")
        = providerEvidence "Cloudflare" cfSig dataMulti
      ∧ (providerEvidence "Cloudflare" cfSig dataMulti).countP
            (fun e => e.weight == 100)
          = (cfSig.asns.map (fun a =>
              dataMulti.asns.countP (fun r => jsNumEq r.asn (some a)))).sum
      ∧ (providerEvidence "Cloudflare" cfSig dataMulti).countP
            (fun e => e.weight == 50)
          = (cfSig.domains.map (fun d =>
              dataMulti.cnameChain.countP (fun c => jsIncludes c d)
                + dataMulti.reverseDNS.countP (fun r => jsIncludes r d))).sum) :=
  ⟨by decide,
   evidence_match_multiplicities "Cloudflare" cfSig (by decide) dataMulti⟩

/-- C4 counterexample: `CF-RAY` is a catalog header name for Cloudflare and
is present (with an empty value) in the fetched header map, yet no weight-30
evidence is appended — presence alone does not suffice, the value must be
truthy. -/
theorem header_presence_claim_false :
    ("Cloudflare", cfSig) ∈ cdnSignatures
      ∧ "CF-RAY" ∈ cfSig.headers
      ∧ parseHeaders "HTTP/1.1 200 OK\nCF-RAY:\n" = dataEmptyHeaderVal.headers
      ∧ jsGet dataEmptyHeaderVal.headers "CF-RAY" = some ""
      ∧ (providerEvidence "Cloudflare" cfSig dataEmptyHeaderVal).countP
          (fun e => e.weight == 30) = 0
      ∧ analysisEvidence dataEmptyHeaderVal = [] := by
  refine ⟨by decide, by decide, by decide, by decide, by decide, by decide⟩

/-- C4 (amended): a weight-30 entry is appended for every catalog header
name whose value in the fetched header map is truthy (present and
non-empty), and for every catalog server token contained in the `server`
header value, the latter checked only when a `server` header exists
(case-sensitive keys throughout). -/
theorem header_evidence_counts (p : String) (sig : Signature)
    (hmem : (p, sig) ∈ cdnSignatures) (data : CollectedData) :
    (providerEvidence p sig data).countP (fun e => e.weight == 30)
      = sig.headers.countP (fun h => truthy (jsGet data.headers h))
        + (match jsGet data.headers "server" with
           | some v => sig.servers.countP (fun t => jsIncludes v t)
           | none => 0) :=
  countP_providerEvidence_30 p sig data

theorem header_evidence_counts_witness :
    ("Cloudflare", cfSig) ∈ cdnSignatures ∧
    (providerEvidence "Cloudflare" cfSig dataHdr).countP
        (fun e => e.weight == 30)
      = cfSig.headers.countP (fun h => truthy (jsGet dataHdr.headers h))
        + (match jsGet dataHdr.headers "server" with
           | some v => cfSig.servers.countP (fun t => jsIncludes v t)
           | none => 0) :=
  ⟨by decide, header_evidence_counts "Cloudflare" cfSig (by decide) dataHdr⟩

/-! ## Association-list accumulation (`providerAndWeights`) -/

theorem keysOf_append (l m : List (String × Nat)) :
    keysOf (l ++ m) = keysOf l ++ keysOf m := by simp [keysOf]

theorem any_key_iff_mem (l : List (String × Nat)) (p : String) :
    l.any (fun x => x.1 == p) = true ↔ p ∈ keysOf l := by
  simp only [List.any_eq_true, keysOf, List.mem_map, beq_iff_eq]

theorem keysOf_map_upd (pw : List (String × Nat)) (q : String) (w : Nat) :
    keysOf (pw.map (fun x => if x.1 == q then (x.1, x.2 + w) else x))
      = keysOf pw := by
  unfold keysOf
  rw [List.map_map]
  apply List.map_congr_left
  intro x _
  simp only [Function.comp_apply]
  split <;> rfl

theorem keys_addEvidenceWeight (pw : List (String × Nat)) (e : Evidence) :
    keysOf (addEvidenceWeight pw e)
      = if e.provider ∈ keysOf pw then keysOf pw
        else keysOf pw ++ [e.provider] := by
  unfold addEvidenceWeight
  by_cases h : pw.any (fun x => x.1 == e.provider) = true
  · rw [if_pos h, if_pos ((any_key_iff_mem pw e.provider).mp h)]
    exact keysOf_map_upd pw e.provider e.weight
  · rw [if_neg h, if_neg (fun hm => h ((any_key_iff_mem pw e.provider).mpr hm))]
    rw [keysOf_append]
    rfl

theorem lookW_cons (x : String × Nat) (xs : List (String × Nat)) (p : String) :
    lookW (x :: xs) p = if x.1 == p then some x.2 else lookW xs p := by
  unfold lookW
  rw [List.find?_cons]
  cases h : (x.1 == p) <;> simp [h]

theorem lookW_append (l m : List (String × Nat)) (p : String) :
    lookW (l ++ m) p = (lookW l p).or (lookW m p) := by
  unfold lookW
  rw [List.find?_append]
  cases List.find? (fun x => x.1 == p) l <;> simp

theorem lookW_eq_none_iff (l : List (String × Nat)) (p : String) :
    lookW l p = none ↔ ∀ x ∈ l, x.1 ≠ p := by
  unfold lookW
  simp [List.find?_eq_none]

theorem lookW_map_upd (q : String) (w : Nat) :
    ∀ (pw : List (String × Nat)) (p : String),
      lookW (pw.map (fun x => if x.1 == q then (x.1, x.2 + w) else x)) p
        = if p = q then (lookW pw p).map (· + w) else lookW pw p := by
  intro pw
  induction pw with
  | nil => intro p; by_cases h : p = q <;> simp [lookW, h]
  | cons x xs ih =>
    intro p
    simp only [List.map_cons]
    by_cases hxq : (x.1 == q) = true <;> by_cases hxp : (x.1 == p) = true
    · have hpq : p = q := (eq_of_beq hxp).symm.trans (eq_of_beq hxq)
      subst hpq
      simp [hxq, hxp, lookW_cons]
    · have hpq : p ≠ q := fun he => hxp (by rw [he]; exact hxq)
      have IH := ih p
      rw [if_neg hpq] at IH
      simp only [hxq, hxp, lookW_cons, hpq, if_true, if_false]
      simp [hxp, hpq]
      simpa using IH
    · have hpq : p ≠ q := fun he =>
        hxq (beq_iff_eq.mpr ((eq_of_beq hxp).trans he))
      simp [hxq, hxp, lookW_cons, hpq]
    · have IH := ih p
      simp [hxq, hxp, lookW_cons]
      simpa using IH

theorem lookW_isSome_of_mem_keys {pw : List (String × Nat)} {p : String}
    (h : p ∈ keysOf pw) : ∃ w, lookW pw p = some w := by
  induction pw with
  | nil => simp [keysOf] at h
  | cons x xs ih =>
    rw [lookW_cons]
    by_cases hx : (x.1 == p) = true
    · exact ⟨x.2, by rw [if_pos hx]⟩
    · simp only [keysOf, List.map_cons, List.mem_cons] at h
      rcases h with h | h
      · exact absurd (beq_iff_eq.mpr h.symm) (by simpa using hx)
      · rw [if_neg hx]
        exact ih h

theorem lookW_addEvidenceWeight (pw : List (String × Nat)) (e : Evidence)
    (p : String) :
    lookW (addEvidenceWeight pw e) p
      = if p = e.provider then some ((lookW pw p).getD 0 + e.weight)
        else lookW pw p := by
  unfold addEvidenceWeight
  by_cases h : pw.any (fun x => x.1 == e.provider) = true
  · rw [if_pos h, lookW_map_upd]
    by_cases hp : p = e.provider
    · rw [if_pos hp, if_pos hp]
      obtain ⟨w0, hw0⟩ :=
        lookW_isSome_of_mem_keys (hp ▸ (any_key_iff_mem pw e.provider).mp h)
      rw [hw0]
      simp
    · rw [if_neg hp, if_neg hp]
  · rw [if_neg h, lookW_append]
    by_cases hp : p = e.provider
    · rw [if_pos hp]
      have hnone : lookW pw p = none := by
        rw [lookW_eq_none_iff]
        intro x hx he
        apply h
        exact List.any_eq_true.mpr ⟨x, hx, beq_iff_eq.mpr (he.trans hp)⟩
      rw [hnone]
      simp [lookW, List.find?, hp]
    · rw [if_neg hp]
      have hsing : lookW [(e.provider, e.weight)] p = none := by
        rw [lookW_eq_none_iff]
        intro x hx
        simp only [List.mem_singleton] at hx
        subst hx
        exact fun he => hp he.symm
      rw [hsing]
      cases lookW pw p <;> rfl

theorem providerWeight_cons (e : Evidence) (es : List Evidence) (p : String) :
    providerWeight (e :: es) p
      = (if e.provider == p then e.weight else 0) + providerWeight es p := by
  unfold providerWeight
  rw [List.filter_cons]
  by_cases h : (e.provider == p) = true
  · simp [h]
  · simp [h]

theorem providerWeight_eq_zero {es : List Evidence} {p : String}
    (h : p ∉ es.map (·.provider)) : providerWeight es p = 0 := by
  unfold providerWeight
  rw [List.filter_eq_nil_iff.mpr]
  · rfl
  · intro e he hbe
    exact h (List.mem_map.mpr ⟨e, he, eq_of_beq hbe⟩)

theorem lookW_foldl (es : List Evidence) :
    ∀ (pw : List (String × Nat)) (p : String),
      lookW (es.foldl addEvidenceWeight pw) p
        = if p ∈ es.map (·.provider)
          then some ((lookW pw p).getD 0 + providerWeight es p)
          else lookW pw p := by
  induction es with
  | nil => intro pw p; simp [providerWeight]
  | cons e es ih =>
    intro pw p
    rw [List.foldl_cons, ih (addEvidenceWeight pw e) p, lookW_addEvidenceWeight,
      providerWeight_cons]
    simp only [List.map_cons, List.mem_cons]
    by_cases hpe : p = e.provider
    · rw [if_pos (Or.inl hpe)]
      have hbe : (e.provider == p) = true := beq_iff_eq.mpr hpe.symm
      by_cases hpes : p ∈ es.map (·.provider)
      · rw [if_pos hpes, if_pos hpe]
        simp only [Option.getD_some, hbe, if_pos]
        congr 1
        omega
      · rw [if_neg hpes, if_pos hpe]
        rw [providerWeight_eq_zero hpes]
        simp [hbe]
    · rw [if_neg hpe]
      have hbe : (e.provider == p) = false := by
        simp only [beq_eq_false_iff_ne, ne_eq]
        exact fun he => hpe he.symm
      by_cases hpes : p ∈ es.map (·.provider)
      · rw [if_pos hpes, if_pos (Or.inr hpes)]
        simp [hbe]
      · rw [if_neg hpes, if_neg (by rintro (h | h); exact hpe h; exact hpes h)]

theorem newKeys_nil (s : List String) : newKeys s [] = [] := rfl

theorem newKeys_cons (s : List String) (p : String) (ps : List String) :
    newKeys s (p :: ps)
      = if p ∈ s then newKeys s ps else p :: newKeys (p :: s) ps := rfl

theorem newKeys_congr : ∀ (l s t : List String),
    (∀ x, x ∈ s ↔ x ∈ t) → newKeys s l = newKeys t l := by
  intro l
  induction l with
  | nil => intros; rfl
  | cons p ps ih =>
    intro s t hst
    rw [newKeys_cons, newKeys_cons]
    by_cases hp : p ∈ s
    · rw [if_pos hp, if_pos ((hst p).mp hp)]
      exact ih s t hst
    · rw [if_neg hp, if_neg (fun h => hp ((hst p).mpr h))]
      congr 1
      apply ih
      intro x
      simp only [List.mem_cons]
      rw [hst x]

theorem keysOf_foldl (es : List Evidence) :
    ∀ pw, keysOf (es.foldl addEvidenceWeight pw)
      = keysOf pw ++ newKeys (keysOf pw) (es.map (·.provider)) := by
  induction es with
  | nil => intro pw; simp [newKeys_nil]
  | cons e es ih =>
    intro pw
    rw [List.foldl_cons, ih (addEvidenceWeight pw e), keys_addEvidenceWeight]
    simp only [List.map_cons, newKeys_cons]
    by_cases h : e.provider ∈ keysOf pw
    · rw [if_pos h, if_pos h]
    · rw [if_neg h, if_neg h]
      rw [List.append_assoc]
      congr 1
      rw [List.singleton_append]
      congr 1
      apply newKeys_congr
      intro x
      simp only [List.mem_append, List.mem_singleton, List.mem_cons]
      tauto

theorem newKeys_nodup : ∀ (l s : List String),
    (newKeys s l).Nodup ∧ ∀ x ∈ newKeys s l, x ∉ s := by
  intro l
  induction l with
  | nil => intro s; simp [newKeys_nil]
  | cons p ps ih =>
    intro s
    rw [newKeys_cons]
    by_cases hp : p ∈ s
    · rw [if_pos hp]
      exact ih s
    · rw [if_neg hp]
      obtain ⟨h1, h2⟩ := ih (p :: s)
      refine ⟨List.nodup_cons.mpr ⟨fun hmem => h2 p hmem (List.mem_cons_self p s), h1⟩, ?_⟩
      intro x hx
      rcases List.mem_cons.mp hx with rfl | hx'
      · exact hp
      · exact fun hxs => h2 x hx' (List.mem_cons_of_mem p hxs)

theorem mem_newKeys : ∀ (l s : List String) (x : String),
    x ∈ newKeys s l ↔ x ∈ l ∧ x ∉ s := by
  intro l
  induction l with
  | nil => intro s x; simp [newKeys_nil]
  | cons p ps ih =>
    intro s x
    rw [newKeys_cons]
    by_cases hp : p ∈ s
    · rw [if_pos hp, ih]
      simp only [List.mem_cons]
      constructor
      · rintro ⟨h1, h2⟩
        exact ⟨Or.inr h1, h2⟩
      · rintro ⟨h1 | h1, h2⟩
        · subst h1; exact absurd hp h2
        · exact ⟨h1, h2⟩
    · rw [if_neg hp]
      simp only [List.mem_cons, ih]
      constructor
      · rintro (rfl | ⟨h1, h2⟩)
        · exact ⟨Or.inl rfl, hp⟩
        · constructor
          · exact Or.inr h1
          · intro hxs
            exact h2 (Or.inr hxs)
      · rintro ⟨rfl | h1, h2⟩
        · exact Or.inl rfl
        · by_cases hxp : x = p
          · exact Or.inl hxp
          · refine Or.inr ⟨h1, ?_⟩
            rintro (h | h)
            · exact hxp h
            · exact h2 h

theorem lookW_of_mem : ∀ {l : List (String × Nat)}, (keysOf l).Nodup →
    ∀ {p : String} {w : Nat}, (p, w) ∈ l → lookW l p = some w := by
  intro l
  induction l with
  | nil => intro _ p w hmem; simp at hmem
  | cons x xs ih =>
    intro hnd p w hmem
    simp only [keysOf, List.map_cons, List.nodup_cons] at hnd
    rw [lookW_cons]
    rcases List.mem_cons.mp hmem with heq | hmem'
    · rw [← heq]
      simp
    · by_cases hx : (x.1 == p) = true
      · exfalso
        apply hnd.1
        rw [eq_of_beq hx]
        exact List.mem_map.mpr ⟨(p, w), hmem', rfl⟩
      · rw [if_neg hx]
        exact ih hnd.2 hmem'

theorem keysOf_cons (x : String × Nat) (xs : List (String × Nat)) :
    keysOf (x :: xs) = x.1 :: keysOf xs := rfl

theorem assoc_ext : ∀ (l : List (String × Nat)) (f : String → Nat),
    (∀ pr ∈ l, pr.2 = f pr.1) → l = (keysOf l).map (fun k => (k, f k)) := by
  intro l
  induction l with
  | nil => intro f _; rfl
  | cons x xs ih =>
    intro f h
    rw [keysOf_cons, List.map_cons,
      ← ih f (fun pr hpr => h pr (List.mem_cons_of_mem _ hpr))]
    have hx := h x (List.mem_cons_self _ _)
    obtain ⟨a, b⟩ := x
    dsimp only at hx ⊢
    rw [hx]

/-! ## `Math.max` over lists -/

theorem le_foldl_max : ∀ (l : List Nat) (a : Nat), a ≤ l.foldl max a := by
  intro l
  induction l with
  | nil => intro a; exact Nat.le_refl a
  | cons x xs ih =>
    intro a
    calc a ≤ max a x := le_max_left a x
      _ ≤ xs.foldl max (max a x) := ih (max a x)

theorem mem_le_foldl_max : ∀ (l : List Nat) (a x : Nat), x ∈ l →
    x ≤ l.foldl max a := by
  intro l
  induction l with
  | nil => intro a x h; simp at h
  | cons y ys ih =>
    intro a x h
    rcases List.mem_cons.mp h with rfl | h'
    · calc x ≤ max a x := le_max_right a x
        _ ≤ ys.foldl max (max a x) := le_foldl_max ys (max a x)
    · exact ih (max a y) x h'

theorem foldl_max_mem : ∀ (l : List Nat) (a : Nat),
    l.foldl max a = a ∨ l.foldl max a ∈ l := by
  intro l
  induction l with
  | nil => intro a; exact Or.inl rfl
  | cons x xs ih =>
    intro a
    rcases ih (max a x) with h | h
    · rcases max_choice a x with hm | hm
      · left; rw [List.foldl_cons, h, hm]
      · right; rw [List.foldl_cons, h, hm]; exact List.mem_cons_self x xs
    · right
      rw [List.foldl_cons]
      exact List.mem_cons_of_mem x h

/-! ## Weight bounds -/

theorem sumWeights_cons (e : Evidence) (es : List Evidence) :
    sumWeights (e :: es) = e.weight + sumWeights es := by
  simp [sumWeights]

theorem providerWeight_le_sumWeights (es : List Evidence) (p : String) :
    providerWeight es p ≤ sumWeights es := by
  induction es with
  | nil => exact Nat.le_refl 0
  | cons e es ih =>
    rw [providerWeight_cons, sumWeights_cons]
    by_cases h : (e.provider == p) = true
    · rw [if_pos h]; omega
    · rw [if_neg h]; omega

theorem weight_le_providerWeight {es : List Evidence} {e : Evidence}
    (hmem : e ∈ es) : e.weight ≤ providerWeight es e.provider := by
  unfold providerWeight
  have h1 : e ∈ es.filter (fun x => x.provider == e.provider) :=
    List.mem_filter.mpr ⟨hmem, by simp⟩
  exact List.single_le_sum (fun x _ => Nat.zero_le x) _
    (List.mem_map.mpr ⟨e, h1, rfl⟩)

theorem weight_le_sumWeights {es : List Evidence} {e : Evidence}
    (hmem : e ∈ es) : e.weight ≤ sumWeights es := by
  unfold sumWeights
  exact List.single_le_sum (fun x _ => Nat.zero_le x) _
    (List.mem_map.mpr ⟨e, hmem, rfl⟩)

/-! ## Keys of the accumulated weights, per catalog chunk -/

theorem newKeys_const_block : ∀ (xs : List String) (q : String)
    (seen rest : List String), (∀ x ∈ xs, x = q) →
    newKeys seen (xs ++ rest)
      = if xs = [] ∨ q ∈ seen then newKeys seen rest
        else q :: newKeys (q :: seen) rest := by
  intro xs
  induction xs with
  | nil =>
    intro q seen rest _
    rw [if_pos (Or.inl rfl)]
    rfl
  | cons x xs ih =>
    intro q seen rest hall
    obtain rfl : x = q := hall x (List.mem_cons_self _ _)
    have htail : ∀ y ∈ xs, y = x := fun y hy =>
      hall y (List.mem_cons_of_mem _ hy)
    rw [List.cons_append, newKeys_cons]
    by_cases hq : x ∈ seen
    · rw [if_pos hq, ih x seen rest htail, if_pos (Or.inr hq),
        if_pos (Or.inr hq)]
    · rw [if_neg hq, ih x (x :: seen) rest htail,
        if_pos (Or.inr (List.mem_cons_self x seen)),
        if_neg (by rintro (hh | hh)
                   · exact List.cons_ne_nil x xs hh
                   · exact hq hh)]

theorem chunk_providers_const (ps : String × Signature) (data : CollectedData) :
    ∀ x ∈ (providerEvidence ps.1 ps.2 data).map (·.provider), x = ps.1 := by
  intro x hx
  obtain ⟨e, he, rfl⟩ := List.mem_map.mp hx
  exact (mem_providerEvidence he).1

theorem newKeys_chunks (data : CollectedData) :
    ∀ (cat : List (String × Signature)) (seen : List String),
      (∀ k ∈ cat.map (·.1), k ∉ seen) → (cat.map (·.1)).Nodup →
      newKeys seen
          (cat.flatMap (fun ps =>
            (providerEvidence ps.1 ps.2 data).map (·.provider)))
        = (cat.filter (fun ps =>
            !(providerEvidence ps.1 ps.2 data).isEmpty)).map (·.1) := by
  intro cat
  induction cat with
  | nil => intro seen _ _; rfl
  | cons ps rest ih =>
    intro seen hseen hnd
    rw [List.flatMap_cons,
      newKeys_const_block _ ps.1 seen _ (chunk_providers_const ps data)]
    simp only [List.map_cons, List.nodup_cons] at hnd
    have hps : ps.1 ∉ seen := hseen ps.1 (by simp)
    rw [List.filter_cons]
    by_cases hemp : providerEvidence ps.1 ps.2 data = []
    · have hmap : (providerEvidence ps.1 ps.2 data).map (·.provider) = [] := by
        rw [hemp]; rfl
      rw [if_pos (Or.inl hmap),
        ih seen (fun k hk => hseen k (List.mem_cons_of_mem _ hk)) hnd.2,
        if_neg (by simp [hemp])]
    · have hmap : (providerEvidence ps.1 ps.2 data).map (·.provider) ≠ [] := by
        simpa using hemp
      rw [if_neg (by rintro (hh | hh)
                     · exact hmap hh
                     · exact hps hh),
        if_pos (by simp [List.isEmpty_eq_false.mpr hemp]),
        List.map_cons]
      congr 1
      apply ih (ps.1 :: seen)
      · intro k hk hkmem
        rcases List.mem_cons.mp hkmem with hh | hh
        · exact hnd.1 (hh ▸ hk)
        · exact hseen k (List.mem_cons_of_mem _ hk) hh
      · exact hnd.2

theorem find?_filter_of_false {α : Type} (g h : α → Bool) :
    ∀ l : List α, (∀ x ∈ l, g x = false → h x = false) →
      (l.filter g).find? h = l.find? h := by
  intro l
  induction l with
  | nil => intro _; rfl
  | cons x xs ih =>
    intro hyp
    have htail := fun y hy => hyp y (List.mem_cons_of_mem _ hy)
    rw [List.filter_cons]
    by_cases hg : g x = true
    · rw [if_pos hg]
      by_cases hh : h x = true
      · rw [List.find?_cons_of_pos _ hh, List.find?_cons_of_pos _ hh]
      · rw [List.find?_cons_of_neg _ hh, List.find?_cons_of_neg _ hh]
        exact ih htail
    · rw [if_neg hg]
      have hhx : h x = false := hyp x (List.mem_cons_self _ _)
        (by revert hg; cases g x <;> simp)
      rw [List.find?_cons_of_neg _ (by simp [hhx])]
      exact ih htail

/-! ## The accumulated weights as a function of `providerWeight` -/

theorem providerAndWeights_eq (es : List Evidence) :
    providerAndWeights es
      = (newKeys [] (es.map (·.provider))).map
          (fun k => (k, providerWeight es k)) := by
  have hkeys : keysOf (providerAndWeights es)
      = newKeys [] (es.map (·.provider)) := by
    have hk := keysOf_foldl es []
    simpa [providerAndWeights, keysOf] using hk
  have hnd : (keysOf (providerAndWeights es)).Nodup := by
    rw [hkeys]; exact (newKeys_nodup _ _).1
  have hvals : ∀ pr ∈ providerAndWeights es,
      pr.2 = providerWeight es pr.1 := by
    intro pr hpr
    obtain ⟨a, b⟩ := pr
    have hl : lookW (providerAndWeights es) a = some b := lookW_of_mem hnd hpr
    have hfold := lookW_foldl es [] a
    by_cases hmem : a ∈ es.map (·.provider)
    · rw [if_pos hmem] at hfold
      rw [providerAndWeights] at hl
      rw [hfold] at hl
      simp only [lookW, List.find?_nil, Option.map_none', Option.getD_none,
        Nat.zero_add, Option.some.injEq] at hl
      exact hl.symm
    · rw [if_neg hmem] at hfold
      rw [providerAndWeights] at hl
      rw [hfold] at hl
      simp [lookW] at hl
  calc providerAndWeights es
      = (keysOf (providerAndWeights es)).map
          (fun k => (k, providerWeight es k)) := assoc_ext _ _ hvals
    _ = _ := by rw [hkeys]

/-! ## Classification -/

theorem find?_assoc_max (es : List Evidence) (M : Nat) :
    (providerAndWeights es).find? (fun x => x.2 == M)
      = ((newKeys [] (es.map (·.provider))).find?
          (fun k => providerWeight es k == M)).map
          (fun k => (k, providerWeight es k)) := by
  rw [providerAndWeights_eq, List.find?_map]
  rfl

theorem classify_of_empty (domain : String) {data : CollectedData}
    (h : analysisEvidence data = []) :
    classify domain data
      = ⟨domain, false, none, 0, analysisEvidence data, data⟩ := by
  unfold classify
  rw [if_pos (by simp [h])]

theorem classify_evidence (domain : String) (data : CollectedData) :
    (classify domain data).evidence = analysisEvidence data := by
  unfold classify
  by_cases h : (analysisEvidence data).isEmpty = true
  · rw [if_pos h]
  · rw [if_neg h]

theorem classify_domain_eq (domain : String) (data : CollectedData) :
    (classify domain data).domain = domain := by
  unfold classify
  by_cases h : (analysisEvidence data).isEmpty = true
  · rw [if_pos h]
  · rw [if_neg h]

theorem classify_data_eq (domain : String) (data : CollectedData) :
    (classify domain data).data = data := by
  unfold classify
  by_cases h : (analysisEvidence data).isEmpty = true
  · rw [if_pos h]
  · rw [if_neg h]

theorem classify_detected_iff (domain : String) (data : CollectedData) :
    (classify domain data).cdnDetected = true ↔ analysisEvidence data ≠ [] := by
  unfold classify
  by_cases h : (analysisEvidence data).isEmpty = true
  · rw [if_pos h]
    simp [List.isEmpty_iff.mp h]
  · rw [if_neg h]
    simp only [true_iff]
    exact List.isEmpty_eq_false.mp (by revert h; cases (analysisEvidence data).isEmpty <;> simp)

theorem classify_spec (domain : String) (data : CollectedData)
    (h : analysisEvidence data ≠ []) :
    ∃ p, (classify domain data).cdnDetected = true ∧
      (classify domain data).cdnProvider = some p ∧
      p ∈ catalogKeys ∧
      (∀ q : String, providerWeight (analysisEvidence data) q
          ≤ providerWeight (analysisEvidence data) p) ∧
      (classify domain data).cdnProvider
        = catalogKeys.find? (fun q =>
            providerWeight (analysisEvidence data) q
              == providerWeight (analysisEvidence data) p) ∧
      (classify domain data).confidence
        = (providerWeight (analysisEvidence data) p : ℚ)
            / (sumWeights (analysisEvidence data) : ℚ) := by
  classical
  have hbne : (analysisEvidence data).isEmpty ≠ true := by
    simpa [List.isEmpty_iff] using h
  have hK : keysOf (providerAndWeights (analysisEvidence data))
      = newKeys [] ((analysisEvidence data).map (·.provider)) := by
    have hk := keysOf_foldl (analysisEvidence data) []
    simpa [providerAndWeights, keysOf] using hk
  have hPW := providerAndWeights_eq (analysisEvidence data)
  have hvalues : (providerAndWeights (analysisEvidence data)).map (·.2)
      = (newKeys [] ((analysisEvidence data).map (·.provider))).map
          (fun k => providerWeight (analysisEvidence data) k) := by
    rw [hPW, List.map_map]
    rfl
  -- every key of the accumulator has weight at least 30
  have hbound : ∀ k ∈ newKeys [] ((analysisEvidence data).map (·.provider)),
      30 ≤ providerWeight (analysisEvidence data) k := by
    intro k hk
    have hkprov : k ∈ (analysisEvidence data).map (·.provider) :=
      ((mem_newKeys _ _ k).mp hk).1
    obtain ⟨e, he, hep⟩ := List.mem_map.mp hkprov
    have h30 := (mem_analysisEvidence he).2
    have hW := weight_le_providerWeight he
    rw [hep] at hW
    omega
  -- the key list is non-empty
  obtain ⟨e0, es0, hev0⟩ : ∃ e0 es0, analysisEvidence data = e0 :: es0 := by
    cases hc : analysisEvidence data with
    | nil => exact absurd hc h
    | cons a l => exact ⟨a, l, rfl⟩
  have hk0 : e0.provider ∈ newKeys []
      ((analysisEvidence data).map (·.provider)) := by
    rw [mem_newKeys]
    refine ⟨List.mem_map.mpr ⟨e0, by rw [hev0]; exact List.mem_cons_self _ _, rfl⟩, by simp⟩
  -- the maximum is attained by some key
  have hmaxmem : maxNatList ((providerAndWeights (analysisEvidence data)).map (·.2))
      ∈ (providerAndWeights (analysisEvidence data)).map (·.2) := by
    rcases foldl_max_mem ((providerAndWeights (analysisEvidence data)).map (·.2)) 0 with h0 | hmem
    · exfalso
      have hv0 : providerWeight (analysisEvidence data) e0.provider
          ∈ (providerAndWeights (analysisEvidence data)).map (·.2) := by
        rw [hvalues]
        exact List.mem_map.mpr ⟨e0.provider, hk0, rfl⟩
      have hle := mem_le_foldl_max _ 0 _ hv0
      have h30 := hbound e0.provider hk0
      rw [h0] at hle
      unfold maxNatList at *
      omega
    · exact hmem
  obtain ⟨p0, hp0K, hp0w⟩ : ∃ p0,
      p0 ∈ newKeys [] ((analysisEvidence data).map (·.provider)) ∧
      providerWeight (analysisEvidence data) p0
        = maxNatList ((providerAndWeights (analysisEvidence data)).map (·.2)) := by
    obtain ⟨pr, hpr, hprv⟩ := List.mem_map.mp hmaxmem
    rw [hPW] at hpr
    obtain ⟨k, hkK, hk⟩ := List.mem_map.mp hpr
    refine ⟨k, hkK, ?_⟩
    rw [← hprv, ← hk]
  -- the find? over the accumulator is the find? over its keys
  have hfind : (providerAndWeights (analysisEvidence data)).find?
        (fun x => x.2 == maxNatList
          ((providerAndWeights (analysisEvidence data)).map (·.2)))
      = ((newKeys [] ((analysisEvidence data).map (·.provider))).find?
          (fun k => providerWeight (analysisEvidence data) k
            == maxNatList
              ((providerAndWeights (analysisEvidence data)).map (·.2)))).map
          (fun k => (k, providerWeight (analysisEvidence data) k)) :=
    find?_assoc_max (analysisEvidence data) _
  have hfindSome : ∃ p1,
      (newKeys [] ((analysisEvidence data).map (·.provider))).find?
          (fun k => providerWeight (analysisEvidence data) k
            == maxNatList
              ((providerAndWeights (analysisEvidence data)).map (·.2)))
        = some p1 := by
    have hs : ((newKeys [] ((analysisEvidence data).map (·.provider))).find?
        (fun k => providerWeight (analysisEvidence data) k
          == maxNatList
            ((providerAndWeights (analysisEvidence data)).map (·.2)))).isSome
        = true :=
      List.find?_isSome.mpr ⟨p0, hp0K, beq_iff_eq.mpr hp0w⟩
    cases hc : (newKeys [] ((analysisEvidence data).map (·.provider))).find?
        (fun k => providerWeight (analysisEvidence data) k
          == maxNatList
            ((providerAndWeights (analysisEvidence data)).map (·.2))) with
    | none => rw [hc] at hs; simp at hs
    | some p1 => exact ⟨p1, rfl⟩
  obtain ⟨p1, hp1⟩ := hfindSome
  have hp1K : p1 ∈ newKeys [] ((analysisEvidence data).map (·.provider)) :=
    List.mem_of_find?_eq_some hp1
  have hp1w : providerWeight (analysisEvidence data) p1
      = maxNatList ((providerAndWeights (analysisEvidence data)).map (·.2)) := by
    have hb := List.find?_some hp1
    exact beq_iff_eq.mp hb
  -- provider field of the classification result
  have hprov : (classify domain data).cdnProvider = some p1 := by
    unfold classify
    rw [if_neg hbne]
    simp only
    rw [hfind, hp1]
    rfl
  refine ⟨p1, ?_, hprov, ?_, ?_, ?_, ?_⟩
  · rw [classify_detected_iff]; exact h
  · have hkprov : p1 ∈ (analysisEvidence data).map (·.provider) :=
      ((mem_newKeys _ _ p1).mp hp1K).1
    obtain ⟨e, he, hep⟩ := List.mem_map.mp hkprov
    rw [← hep]
    exact (mem_analysisEvidence he).1
  · intro q
    by_cases hq : q ∈ newKeys [] ((analysisEvidence data).map (·.provider))
    · have hv : providerWeight (analysisEvidence data) q
          ∈ (providerAndWeights (analysisEvidence data)).map (·.2) := by
        rw [hvalues]
        exact List.mem_map.mpr ⟨q, hq, rfl⟩
      have hle := mem_le_foldl_max _ 0 _ hv
      unfold maxNatList at hp1w
      omega
    · have hq' : q ∉ (analysisEvidence data).map (·.provider) := by
        intro hmem
        exact hq ((mem_newKeys _ _ q).mpr ⟨hmem, by simp⟩)
      rw [providerWeight_eq_zero hq']
      exact Nat.zero_le _
  · -- find? over the catalog keys
    rw [hprov, ← hp1]
    have hchunks : newKeys [] ((analysisEvidence data).map (·.provider))
        = (cdnSignatures.filter (fun ps =>
            !(providerEvidence ps.1 ps.2 data).isEmpty)).map (·.1) := by
      rw [analysisEvidence, List.map_flatMap]
      exact newKeys_chunks data cdnSignatures [] (by simp) catalogKeys_nodup
    have hmax30 : 30 ≤ maxNatList
        ((providerAndWeights (analysisEvidence data)).map (·.2)) := by
      rw [← hp1w]
      exact hbound p1 hp1K
    have hzero : ∀ ps ∈ cdnSignatures,
        (!(providerEvidence ps.1 ps.2 data).isEmpty) = false →
        (providerWeight (analysisEvidence data) ps.1
          == maxNatList
            ((providerAndWeights (analysisEvidence data)).map (·.2))) = false := by
      intro ps hps hempty
      have hnil : providerEvidence ps.1 ps.2 data = [] := by
        simpa [List.isEmpty_iff] using hempty
      have hfa : (analysisEvidence data).filter (fun e => e.provider == ps.1)
          = providerEvidence ps.1 ps.2 data :=
        filter_analysisEvidence ps.1 ps.2 (by obtain ⟨a, b⟩ := ps; exact hps) data
      have hzero' : providerWeight (analysisEvidence data) ps.1 = 0 := by
        unfold providerWeight
        rw [hfa, hnil]
        rfl
      rw [hzero']
      simp only [beq_eq_false_iff_ne, ne_eq]
      omega
    rw [hp1w, hchunks, List.find?_map,
      find?_filter_of_false
        (fun ps => !(providerEvidence ps.1 ps.2 data).isEmpty)
        ((fun q => providerWeight (analysisEvidence data) q
          == maxNatList
            ((providerAndWeights (analysisEvidence data)).map (·.2)))
          ∘ (fun x => x.1))
        cdnSignatures hzero,
      catalogKeys, List.find?_map]
  · unfold classify
    rw [if_neg hbne]
    simp only
    rw [hp1w]

/-! ## Claim theorems: C1, C2, C8, C9 -/

theorem detectCDN_def (net : Network) (domain : String) :
    detectCDN net domain = classify domain (collectData net domain) := rfl

theorem sumWeights_analysis_pos {data : CollectedData}
    (h : analysisEvidence data ≠ []) :
    0 < sumWeights (analysisEvidence data) := by
  cases hc : analysisEvidence data with
  | nil => exact absurd hc h
  | cons e es =>
    have he : e ∈ analysisEvidence data := by
      rw [hc]; exact List.mem_cons_self _ _
    have h30 := (mem_analysisEvidence he).2
    have hle := weight_le_sumWeights he
    rw [hc] at hle
    omega

/-- C1: with evidence present, confidence is the winning provider's summed
weight divided by the total weight and lies in `[0, 1]`; with no evidence,
confidence is 0 and no CDN is reported. -/
theorem confidence_is_normalized_share (net : Network) (domain : String) :
    ((detectCDN net domain).evidence = [] →
      (detectCDN net domain).confidence = 0 ∧
      (detectCDN net domain).cdnDetected = false) ∧
    ((detectCDN net domain).evidence ≠ [] →
      ∃ p, (detectCDN net domain).cdnProvider = some p ∧
        (detectCDN net domain).confidence
          = (providerWeight (detectCDN net domain).evidence p : ℚ)
              / (sumWeights (detectCDN net domain).evidence : ℚ) ∧
        0 ≤ (detectCDN net domain).confidence ∧
        (detectCDN net domain).confidence ≤ 1) := by
  have hev : (detectCDN net domain).evidence
      = analysisEvidence (collectData net domain) :=
    classify_evidence domain (collectData net domain)
  constructor
  · intro he
    rw [hev] at he
    have hcl := classify_of_empty domain he
    rw [detectCDN_def, hcl]
    exact ⟨rfl, rfl⟩
  · intro hne
    rw [hev] at hne
    obtain ⟨p, _, hprov, _, _, _, hconf⟩ :=
      classify_spec domain (collectData net domain) hne
    have hpos := sumWeights_analysis_pos hne
    refine ⟨p, hprov, ?_, ?_, ?_⟩
    · rw [detectCDN_def, hconf, classify_evidence]
    · rw [detectCDN_def, hconf]
      apply div_nonneg
      · exact Nat.cast_nonneg _
      · exact Nat.cast_nonneg _
    · rw [detectCDN_def, hconf]
      rw [div_le_one (by exact_mod_cast hpos)]
      exact_mod_cast providerWeight_le_sumWeights _ p

theorem confidence_is_normalized_share_witness :
    (detectCDN netCF "x.com").evidence ≠ [] ∧
    (∃ p, (detectCDN netCF "x.com").cdnProvider = some p ∧
      (detectCDN netCF "x.com").confidence
        = (providerWeight (detectCDN netCF "x.com").evidence p : ℚ)
            / (sumWeights (detectCDN netCF "x.com").evidence : ℚ) ∧
      0 ≤ (detectCDN netCF "x.com").confidence ∧
      (detectCDN netCF "x.com").confidence ≤ 1) :=
  ⟨by decide, (confidence_is_normalized_share netCF "x.com").2 (by decide)⟩

/-- C2: with evidence present, the reported provider has the maximal summed
evidence weight, and it is the first provider in catalog iteration order
whose summed weight reaches that maximum. -/
theorem winner_is_first_max_in_catalog (net : Network) (domain : String)
    (h : (detectCDN net domain).evidence ≠ []) :
    ∃ p, (detectCDN net domain).cdnProvider = some p ∧
      (∀ q : String, providerWeight (detectCDN net domain).evidence q
          ≤ providerWeight (detectCDN net domain).evidence p) ∧
      (detectCDN net domain).cdnProvider
        = catalogKeys.find? (fun q =>
            providerWeight (detectCDN net domain).evidence q
              == providerWeight (detectCDN net domain).evidence p) := by
  have hev : (detectCDN net domain).evidence
      = analysisEvidence (collectData net domain) :=
    classify_evidence domain (collectData net domain)
  rw [hev] at h
  rw [detectCDN_def] at *
  rw [hev]
  obtain ⟨p, _, hprov, _, hmax, hfindeq, _⟩ :=
    classify_spec domain (collectData net domain) h
  exact ⟨p, hprov, hmax, hfindeq⟩

theorem winner_is_first_max_in_catalog_witness :
    ∃ p, (detectCDN netCF "x.com").cdnProvider = some p ∧
      (∀ q : String, providerWeight (detectCDN netCF "x.com").evidence q
          ≤ providerWeight (detectCDN netCF "x.com").evidence p) ∧
      (detectCDN netCF "x.com").cdnProvider
        = catalogKeys.find? (fun q =>
            providerWeight (detectCDN netCF "x.com").evidence q
              == providerWeight (detectCDN netCF "x.com").evidence p) :=
  winner_is_first_max_in_catalog netCF "x.com" (by decide)

/-- C9: a CDN is reported exactly when the evidence list is non-empty; a
reported provider is a catalog key; with no detection the provider is `none`
and the confidence 0 — so a single matching signal suffices. -/
theorem detection_iff_evidence (net : Network) (domain : String) :
    ((detectCDN net domain).cdnDetected = true ↔
        (detectCDN net domain).evidence ≠ []) ∧
    ((detectCDN net domain).cdnDetected = true →
      ∃ p, (detectCDN net domain).cdnProvider = some p ∧ p ∈ catalogKeys) ∧
    ((detectCDN net domain).cdnDetected = false →
      (detectCDN net domain).cdnProvider = none ∧
      (detectCDN net domain).confidence = 0) := by
  have hev : (detectCDN net domain).evidence
      = analysisEvidence (collectData net domain) :=
    classify_evidence domain (collectData net domain)
  refine ⟨?_, ?_, ?_⟩
  · rw [hev]
    exact classify_detected_iff domain (collectData net domain)
  · intro hdet
    have hne := (classify_detected_iff domain (collectData net domain)).mp hdet
    obtain ⟨p, _, hprov, hpK, _, _, _⟩ :=
      classify_spec domain (collectData net domain) hne
    exact ⟨p, hprov, hpK⟩
  · intro hfalse
    have hne : analysisEvidence (collectData net domain) = [] := by
      by_contra hc
      have ht := (classify_detected_iff domain (collectData net domain)).mpr hc
      rw [detectCDN_def] at hfalse
      rw [ht] at hfalse
      exact Bool.noConfusion hfalse
    have hcl := classify_of_empty domain hne
    rw [detectCDN_def, hcl]
    exact ⟨rfl, rfl⟩

theorem detection_iff_evidence_witness :
    (detectCDN netHdrOnly "x.com").evidence ≠ [] ∧
    (detectCDN netHdrOnly "x.com").cdnDetected = true :=
  ⟨by decide, (detection_iff_evidence netHdrOnly "x.com").1.mpr (by decide)⟩

/-- C8: when the header fetch fails and discovery yields zero IPs, detection
still returns `cdnDetected = false`, empty evidence and confidence 0 (a
total function, so no exception reaches the caller); and on a network where
only the header fetch succeeds, header-only evidence still classifies a
provider. -/
theorem unresolvable_degrades_gracefully (net : Network) (domain : String)
    (hhdr : net.headersText = none)
    (hdns : ∀ ips chain, (getIPsFromDNS net domain).2 = some (ips, chain) →
      ips = []) :
    ((detectCDN net domain).cdnDetected = false ∧
      (detectCDN net domain).evidence = [] ∧
      (detectCDN net domain).confidence = 0) ∧
    ((detectCDN netHdrOnly "x.com").data.ips = [] ∧
      (detectCDN netHdrOnly "x.com").cdnDetected = true) := by
  have hdata : collectData net domain = ⟨[], [], [], [], []⟩ := by
    unfold collectData
    rw [hhdr]
    cases hc : (getIPsFromDNS net domain).2 with
    | none => rfl
    | some pr =>
      obtain ⟨ips, chain⟩ := pr
      have hips := hdns ips chain hc
      subst hips
      rfl
  have hempty : analysisEvidence (⟨[], [], [], [], []⟩ : CollectedData) = [] := by
    decide
  have hcl := classify_of_empty domain hempty
  constructor
  · rw [detectCDN_def, hdata, hcl]
    exact ⟨rfl, by rw [hempty], rfl⟩
  · exact ⟨by decide, by decide⟩

theorem unresolvable_degrades_gracefully_witness :
    ((detectCDN netFail "x.com").cdnDetected = false ∧
      (detectCDN netFail "x.com").evidence = [] ∧
      (detectCDN netFail "x.com").confidence = 0) ∧
    ((detectCDN netHdrOnly "x.com").data.ips = [] ∧
      (detectCDN netHdrOnly "x.com").cdnDetected = true) :=
  unresolvable_degrades_gracefully netFail "x.com" rfl
    (fun ips chain h => by
      rw [show (getIPsFromDNS netFail "x.com").2 = none from rfl] at h
      exact Option.noConfusion h)

/-! ## ASN and PTR result processing (C6 machinery) -/

theorem jsNumEq_some (o : Option Int) (v : Int) :
    jsNumEq o (some v) = (o == some v) := by
  cases o <;> rfl

theorem jsNumEq_none_right (o : Option Int) : jsNumEq o none = false := by
  cases o <;> rfl

theorem processASN_filter :
    ∀ (results : List (Option ASNRecord)) (acc : List ASNRecord),
      (∀ v : Int,
        ((results.foldl (fun acc o =>
            match o with
            | some r => if acc.any (fun a => jsNumEq a.asn r.asn) then acc
                        else acc ++ [r]
            | none => acc) acc).filter (fun r => r.asn == some v))
          = acc.filter (fun r => r.asn == some v)
            ++ (if acc.any (fun a => jsNumEq a.asn (some v)) then []
                else ((results.filterMap id).filter
                    (fun r => r.asn == some v)).take 1))
      ∧ ((results.foldl (fun acc o =>
            match o with
            | some r => if acc.any (fun a => jsNumEq a.asn r.asn) then acc
                        else acc ++ [r]
            | none => acc) acc).filter (fun r => r.asn == none)
          = acc.filter (fun r => r.asn == none)
            ++ (results.filterMap id).filter (fun r => r.asn == none)) := by
  intro results
  induction results with
  | nil =>
    intro acc
    constructor
    · intro v
      by_cases hv : acc.any (fun a => jsNumEq a.asn (some v)) = true
      · simp [hv]
      · simp [hv]
    · simp
  | cons o os ih =>
    intro acc
    cases o with
    | none =>
      simpa [List.foldl_cons, List.filterMap_cons] using ih acc
    | some r =>
      rw [List.foldl_cons]
      simp only []
      by_cases hg : acc.any (fun a => jsNumEq a.asn r.asn) = true
      · rw [if_pos hg]
        obtain ⟨ih1, ih2⟩ := ih acc
        constructor
        · intro v
          rw [ih1 v]
          by_cases hacc : acc.any (fun a => jsNumEq a.asn (some v)) = true
          · rw [if_pos hacc, if_pos hacc]
          · rw [if_neg hacc, if_neg hacc]
            have hrv : (r.asn == some v) = false := by
              by_cases hreq : r.asn = some v
              · exfalso
                apply hacc
                rw [← hreq]
                exact hg
              · exact beq_eq_false_iff_ne.mpr hreq
            simp [List.filterMap_cons, List.filter_cons, hrv]
        · rw [ih2]
          have hrn : (r.asn == none) = false := by
            by_cases hreq : r.asn = none
            · exfalso
              have : acc.any (fun a => jsNumEq a.asn r.asn) = false := by
                rw [hreq]
                simp [jsNumEq_none_right]
              rw [this] at hg
              exact Bool.noConfusion hg
            · exact beq_eq_false_iff_ne.mpr hreq
          simp [List.filterMap_cons, List.filter_cons, hrn]
      · rw [if_neg hg]
        obtain ⟨ih1, ih2⟩ := ih (acc ++ [r])
        constructor
        · intro v
          rw [ih1 v]
          cases hr : r.asn with
          | none =>
            have h1 : (r.asn == some v) = false := by simp [hr]
            have h2 : (acc ++ [r]).any (fun a => jsNumEq a.asn (some v))
                = acc.any (fun a => jsNumEq a.asn (some v)) := by
              rw [List.any_append]
              simp [hr, jsNumEq_some]
            rw [h2]
            by_cases hacc : acc.any (fun a => jsNumEq a.asn (some v)) = true
            · rw [if_pos hacc, if_pos hacc]
              simp [List.filter_append, List.filter_cons, h1]
            · rw [if_neg hacc, if_neg hacc]
              simp [List.filter_append, List.filter_cons, List.filterMap_cons, h1]
          | some w =>
            by_cases hvw : w = v
            · subst hvw
              have h1 : (r.asn == some w) = true := by simp [hr]
              have h2 : (acc ++ [r]).any (fun a => jsNumEq a.asn (some w))
                  = true := by
                rw [List.any_append]
                simp [hr, jsNumEq_some]
              have hfacc : acc.filter (fun a => a.asn == some w) = [] := by
                rw [List.filter_eq_nil_iff]
                intro a ha hba
                apply hg
                apply List.any_eq_true.mpr
                refine ⟨a, ha, ?_⟩
                rw [hr, jsNumEq_some]
                exact hba
              rw [h2, if_pos rfl]
              have hgacc : acc.any (fun a => jsNumEq a.asn (some w)) = false := by
                cases hc : acc.any (fun a => jsNumEq a.asn (some w)) with
                | false => rfl
                | true =>
                  exfalso
                  apply hg
                  rw [hr]
                  exact hc
              rw [if_neg (by simp [hgacc])]
              simp [List.filter_append, List.filter_cons, List.filterMap_cons,
                h1, hfacc]
            · have h1 : (r.asn == some v) = false := by
                simp only [hr]
                exact beq_eq_false_iff_ne.mpr (by simpa using hvw)
              have h2 : (acc ++ [r]).any (fun a => jsNumEq a.asn (some v))
                  = acc.any (fun a => jsNumEq a.asn (some v)) := by
                rw [List.any_append]
                have : jsNumEq r.asn (some v) = false := by
                  rw [jsNumEq_some]
                  exact h1
                simp [this]
              rw [h2]
              by_cases hacc : acc.any (fun a => jsNumEq a.asn (some v)) = true
              · rw [if_pos hacc, if_pos hacc]
                simp [List.filter_append, List.filter_cons, h1]
              · rw [if_neg hacc, if_neg hacc]
                simp [List.filter_append, List.filter_cons,
                  List.filterMap_cons, h1]
        · rw [ih2]
          cases hr : r.asn with
          | none =>
            have h1 : (r.asn == none) = true := by simp [hr]
            simp [List.filter_append, List.filter_cons, List.filterMap_cons, h1]
          | some w =>
            have h1 : (r.asn == none) = false := by simp [hr]
            simp [List.filter_append, List.filter_cons, List.filterMap_cons, h1]

theorem processASNResults_filter_some (results : List (Option ASNRecord))
    (v : Int) :
    (processASNResults results).filter (fun r => r.asn == some v)
      = ((results.filterMap id).filter (fun r => r.asn == some v)).take 1 := by
  have h := (processASN_filter results []).1 v
  simpa [processASNResults] using h

theorem processASNResults_filter_none (results : List (Option ASNRecord)) :
    (processASNResults results).filter (fun r => r.asn == none)
      = (results.filterMap id).filter (fun r => r.asn == none) := by
  have h := (processASN_filter results []).2
  simpa [processASNResults] using h

theorem foldl_ptr_nodup (results : List (Option String)) :
    ∀ acc : List String, acc.Nodup →
      (results.foldl (fun acc o =>
        match o with
        | some r => setAdd acc r
        | none => acc) acc).Nodup := by
  induction results with
  | nil => intro acc h; exact h
  | cons o os ih =>
    intro acc h
    cases o with
    | none => exact ih acc h
    | some r => exact ih (setAdd acc r) (setAdd_nodup h r)

theorem processPTRResults_nodup (results : List (Option String)) :
    (processPTRResults results).Nodup :=
  foldl_ptr_nodup results [] List.nodup_nil

theorem getIPsLoop_ips_nodup (net : Network) :
    ∀ (fuel : Nat) (queue ips chain queried : List String), ips.Nodup →
      ∀ ips' chain',
        (getIPsLoop net fuel queue ips chain queried).2 = some (ips', chain') →
        ips'.Nodup := by
  intro fuel
  induction fuel with
  | zero =>
    intro queue ips chain queried h ips' chain' heq
    simp only [getIPsLoop] at heq
    cases heq
    exact h
  | succ n ih =>
    intro queue ips chain queried h ips' chain' heq
    cases queue with
    | nil =>
      simp only [getIPsLoop] at heq
      cases heq
      exact h
    | cons hd rest =>
      rw [getIPsLoop] at heq
      cases hdns : doDNSLookup net hd with
      | none => rw [hdns] at heq; cases heq
      | some pr =>
        obtain ⟨recIps, recCNames⟩ := pr
        rw [hdns] at heq
        exact ih _ _ _ _ (foldl_setAdd_nodup recIps h) ips' chain' heq

theorem collectData_ips_nodup (net : Network) (domain : String) :
    (collectData net domain).ips.Nodup := by
  unfold collectData
  cases hc : (getIPsFromDNS net domain).2 with
  | none => exact List.nodup_nil
  | some pr =>
    obtain ⟨ips, chain⟩ := pr
    simp only
    by_cases hemp : ips.isEmpty = true
    · rw [if_pos hemp]
      exact List.nodup_nil
    · rw [if_neg hemp]
      exact getIPsLoop_ips_nodup net 10 (wwwSeeds domain) [] [] [] List.nodup_nil
        ips chain hc

/-! ## C6 and C7 -/

/-- C6 counterexample: two discovered IPs whose organization strings fail to
parse produce two kept records with the same (absent, `NaN`) ASN value —
the dedup-by-ASN-value rule does not hold for them, because `NaN === NaN`
is false. -/
theorem asn_dedup_claim_false :
    (detectCDN netNaN "n.com").data.ips = ["9.9.9.9", "8.8.8.8"]
      ∧ ((detectCDN netNaN "n.com").data.asns.map (·.asn)) = [none, none]
      ∧ ¬ ((detectCDN netNaN "n.com").data.asns.map (·.asn)).Nodup := by
  refine ⟨by decide, by decide, by decide⟩

/-- C6 (amended): the discovered IP list is duplicate-free and drives exactly
one ASN and one reverse-DNS lookup per IP; PTR results form a set; ASN
records with a parsed (numeric) ASN are deduplicated by value keeping the
first-seen record, while records whose ASN failed to parse (`NaN`) are all
kept, never deduplicated. -/
theorem enrichment_dedup (net : Network) (domain : String) :
    (detectCDN net domain).data.ips.Nodup ∧
    (detectCDN net domain).data.asns
      = processASNResults
          ((detectCDN net domain).data.ips.map (getASNInfo net)) ∧
    (detectCDN net domain).data.reverseDNS
      = processPTRResults
          ((detectCDN net domain).data.ips.map (getReverseDNS net)) ∧
    (detectCDN net domain).data.reverseDNS.Nodup ∧
    (∀ v : Int,
      (detectCDN net domain).data.asns.filter (fun r => r.asn == some v)
        = ((((detectCDN net domain).data.ips.map (getASNInfo net)).filterMap
              id).filter (fun r => r.asn == some v)).take 1) ∧
    ((detectCDN net domain).data.asns.filter (fun r => r.asn == none)
        = (((detectCDN net domain).data.ips.map (getASNInfo net)).filterMap
            id).filter (fun r => r.asn == none)) := by
  have hdata : (detectCDN net domain).data = collectData net domain :=
    classify_data_eq domain (collectData net domain)
  rw [hdata]
  refine ⟨collectData_ips_nodup net domain, rfl, rfl, ?_, ?_, ?_⟩
  · exact processPTRResults_nodup _
  · intro v
    exact processASNResults_filter_some _ v
  · exact processASNResults_filter_none _

theorem enrichment_dedup_witness :
    (detectCDN netNaN "n.com").data.ips.Nodup ∧
    (detectCDN netNaN "n.com").data.asns
      = processASNResults
          ((detectCDN netNaN "n.com").data.ips.map (getASNInfo netNaN)) ∧
    (detectCDN netNaN "n.com").data.reverseDNS
      = processPTRResults
          ((detectCDN netNaN "n.com").data.ips.map (getReverseDNS netNaN)) ∧
    (detectCDN netNaN "n.com").data.reverseDNS.Nodup ∧
    (∀ v : Int,
      (detectCDN netNaN "n.com").data.asns.filter (fun r => r.asn == some v)
        = ((((detectCDN netNaN "n.com").data.ips.map
              (getASNInfo netNaN)).filterMap id).filter
            (fun r => r.asn == some v)).take 1) ∧
    ((detectCDN netNaN "n.com").data.asns.filter (fun r => r.asn == none)
        = (((detectCDN netNaN "n.com").data.ips.map
            (getASNInfo netNaN)).filterMap id).filter
          (fun r => r.asn == none)) :=
  enrichment_dedup netNaN "n.com"

/-- C7 counterexample: on a response whose organization string does not
parse, `getASNInfo` does not return an absent result — it returns a record
(with the organization still populated) whose `asn` field is `NaN`. -/
theorem asn_parse_failure_not_absent :
    asnFromOrg (some "garbage org") = none
      ∧ getASNInfo netNaN "9.9.9.9" ≠ none
      ∧ (getASNInfo netNaN "9.9.9.9").map (·.organization)
          = some (some "garbage org") := by
  refine ⟨by decide, by decide, by decide⟩

/-- C7 (amended): `getASNInfo` is total (never raises); it returns absent
exactly on request failure, and on a successful request it returns a record
whose `asn` field carries the `parseInt` result of the organization's first
token with its first `"AS"` removed — absent (`NaN`) whenever that parse
fails or the organization is missing. -/
theorem getASNInfo_error_boundary (net : Network) (ip : String) :
    (net.asn ip = none → getASNInfo net ip = none) ∧
    (∀ resp, net.asn ip = some resp →
      ∃ r, getASNInfo net ip = some r ∧
        r.asn = asnFromOrg resp.org ∧
        (resp.org = none → r.asn = none) ∧
        (∀ s, resp.org = some s → asnFromOrg (some s) = none →
          r.asn = none)) := by
  constructor
  · intro h
    unfold getASNInfo
    rw [h]
  · intro resp h
    refine ⟨_, by unfold getASNInfo; rw [h], rfl, ?_, ?_⟩
    · intro ho
      simp only [ho]
      rfl
    · intro s hs hparse
      simp only [hs]
      exact hparse

theorem getASNInfo_error_boundary_witness :
    getASNInfo netFail "1.2.3.4" = none ∧
    ∃ r, getASNInfo netNaN "9.9.9.9" = some r ∧ r.asn = none := by
  constructor
  · exact (getASNInfo_error_boundary netFail "1.2.3.4").1 rfl
  · obtain ⟨r, hr, _, _, hparse⟩ :=
      (getASNInfo_error_boundary netNaN "9.9.9.9").2
        ⟨some "garbage org", none, none⟩ (by decide)
    exact ⟨r, hr, hparse "garbage org" rfl (by decide)⟩

end WhichCDN
